import Mathlib

/-!
Verification of the chaindata-squid reconciliation pipeline (`src/processor.ts`).

The pipeline's processor steps are embedded as pure Lean functions over
list-based entity stores keyed by string ids.  The persistence layer
(`store.find` / `findOne` / `save` / `delete`) is modelled as association-style
operations on `List` stores: `save` replaces the row with the same primary id
or appends a new one, `delete` filters by id membership.  All remote I/O
(substrate RPC probes, `eth_chainId` probes, metadata extraction batches, the
price feed) is passed in as explicit function-valued inputs, so a pipeline run
is a deterministic function of the store plus those inputs.

JavaScript value semantics are made explicit: `undefined`/missing JSON fields
are `Option.none`, truthiness of strings (`""` is falsy) and numbers (`0` is
falsy) is spelled out by `jsTruthyStr` / `jsTruthyInt`, and `a || b` fallbacks
become `jsOrStr` etc.
-/

/-- Truthiness of an optional JS string: `undefined` and `""` are falsy. -/
def jsTruthyStr : Option String → Bool
  | some s => s ≠ ""
  | none => false

/-- Truthiness of an optional JS number: `undefined` and `0` are falsy. -/
def jsTruthyInt : Option Int → Bool
  | some n => n ≠ 0
  | none => false

/-- JS `a || b` on optional strings: keep `a` when truthy, else `b`. -/
def jsOrStr (a b : Option String) : Option String :=
  if jsTruthyStr a then a else b

/-- JS `a || b` where `b` is a plain string (e.g. `symbol || 'ETH'`). -/
def jsOrStrD (a : Option String) (b : String) : String :=
  if jsTruthyStr a then a.getD b else b

/-- A substrate RPC endpoint embedded in a `Chain` row: URL plus health flag
(`src/model/generated/_substrateRpc`). -/
structure SubstrateRpc where
  url : String
  isHealthy : Bool
  deriving Repr, DecidableEq

/-- An Ethereum RPC endpoint embedded in an `EvmNetwork` row. -/
structure EthereumRpc where
  url : String
  isHealthy : Bool
  deriving Repr, DecidableEq

/-- The persisted `Chain` entity (`src/model/generated/chain.model.ts`).
Relations (`nativeToken`, `relay`) are stored as the related row's id, the way
the database stores a foreign key.  The source field `prefix` is renamed
`ss58Prefix` because `prefix` is a Lean keyword. -/
structure ChainE where
  id : String
  isTestnet : Bool := false
  sortIndex : Option Int := none
  genesisHash : Option String := none
  ss58Prefix : Option Int := none
  name : Option String := none
  chainName : Option String := none
  implName : Option String := none
  specName : Option String := none
  specVersion : Option String := none
  nativeToken : Option String := none
  tokensCurrencyIdIndex : Option Int := none
  account : Option String := none
  subscanUrl : Option String := none
  rpcs : List SubstrateRpc := []
  isHealthy : Bool := false
  paraId : Option Int := none
  relay : Option String := none
  deriving Repr, DecidableEq

/-- An incoming chain record of the github config feed (`chaindata.json` /
`testnets-chaindata.json`); `relay` holds `githubChain.relay?.id`. -/
structure GithubChain where
  id : String
  isTestnet : Option Bool := none
  name : Option String := none
  account : Option String := none
  subscanUrl : Option String := none
  rpcs : Option (List String) := none
  paraId : Option Int := none
  relay : Option String := none
  deriving Repr, DecidableEq

/-- `store.save(entity)` for an entity-addressed store: replace the row(s)
carrying the entity's primary id, or append the row when the id is new. -/
def saveRow {α β : Type} [DecidableEq β] (idOf : α → β) (store : List α) (e : α) : List α :=
  if store.any (fun x => idOf x = idOf e) then
    store.map (fun x => if idOf x = idOf e then e else x)
  else
    store ++ [e]

/-- `store.findOne(Chain, { where: { id } })`. -/
def findChain (store : List ChainE) (i : String) : Option ChainE :=
  store.find? (fun c => c.id = i)

/-- `store.save(chain)`. -/
def saveChain (store : List ChainE) (c : ChainE) : List ChainE :=
  saveRow (fun x => x.id) store c

/-- Modelled from the spec: the helper `getOrCreate` (src/helpers, not under
src/) — fetch the entity with the given id from the persistence layer, or
create a fresh one carrying that id. -/
def getOrCreateChain (store : List ChainE) (i : String) : ChainE :=
  match findChain store i with
  | some c => c
  | none => { id := i }

/-- The per-record field mapping of `updateChainsFromGithub`
(processor.ts lines 140-156), applied to the fetched-or-created row `chain`,
where `relayRow` is the result of the `store.findOne` relay lookup. -/
def githubChainUpsert (chain : ChainE) (g : GithubChain) (relayRow : Option ChainE) : ChainE :=
  { chain with
    isTestnet := g.isTestnet.getD false
    name := g.name
    account := g.account
    subscanUrl := g.subscanUrl
    rpcs := (g.rpcs.getD []).map (fun url => { url := url, isHealthy := false })
    paraId := if relayRow.isSome ∧ jsTruthyInt g.paraId then g.paraId else none
    relay := if relayRow.isSome ∧ jsTruthyInt g.paraId then relayRow.map (fun r => r.id) else none }

/-- The loop body of `updateChainsFromGithub`: thread the store and the
deletion set through the incoming github chain records. -/
def updateChainsLoop (store : List ChainE) (dels : List String) :
    List GithubChain → List ChainE × List String
  | [] => (store, dels)
  | g :: rest =>
      let dels1 := dels.filter (fun i => i ≠ g.id)
      let chain := getOrCreateChain store g.id
      let relayRow : Option ChainE :=
        if jsTruthyStr g.relay then store.find? (fun c => some c.id = g.relay) else none
      updateChainsLoop (saveChain store (githubChainUpsert chain g relayRow)) dels1 rest

/-- `updateChainsFromGithub` (processor.ts lines 132-162): build the deletion
set from every persisted chain id, upsert each incoming record, then delete
every id left in the deletion set. -/
def updateChainsFromGithub (store : List ChainE) (github : List GithubChain) : List ChainE :=
  let r := updateChainsLoop store (store.map (fun c => c.id)) github
  r.1.filter (fun c => ¬ r.2.contains c.id)

section StoreLemmas

variable {α β : Type} [DecidableEq β] {idOf : α → β}

lemma mem_saveRow {store : List α} {e c : α} (h : c ∈ saveRow idOf store e) :
    c = e ∨ (c ∈ store ∧ idOf c ≠ idOf e) := by
  unfold saveRow at h
  split at h
  · rcases List.mem_map.mp h with ⟨x, hx, hxe⟩
    by_cases hid : idOf x = idOf e
    · simp [hid] at hxe
      exact Or.inl hxe.symm
    · simp [hid] at hxe
      subst hxe
      exact Or.inr ⟨hx, hid⟩
  · rename_i hany
    rcases List.mem_append.mp h with hc | hc
    · refine Or.inr ⟨hc, ?_⟩
      intro heq
      exact hany (List.any_eq_true.mpr ⟨c, hc, decide_eq_true heq⟩)
    · exact Or.inl (List.mem_singleton.mp hc)

lemma saveRow_mem_self {store : List α} (e : α) : e ∈ saveRow idOf store e := by
  unfold saveRow
  split
  · rename_i hany
    rcases List.any_eq_true.mp hany with ⟨x, hx, hxe⟩
    exact List.mem_map.mpr ⟨x, hx, by simp [of_decide_eq_true hxe]⟩
  · exact List.mem_append.mpr (Or.inr (List.mem_singleton.mpr rfl))

lemma saveRow_mem_of_mem {store : List α} {e c : α} (h : c ∈ store)
    (hne : idOf c ≠ idOf e) : c ∈ saveRow idOf store e := by
  unfold saveRow
  split
  · exact List.mem_map.mpr ⟨c, h, by simp [hne]⟩
  · exact List.mem_append.mpr (Or.inl h)

/-- The id set after a save is the old id set plus the saved row's id. -/
lemma saveRow_id_mem {store : List α} {e : α} {i : β}
    (h : ∃ c ∈ saveRow idOf store e, idOf c = i) :
    (∃ c ∈ store, idOf c = i) ∨ i = idOf e := by
  rcases h with ⟨c, hc, hci⟩
  rcases mem_saveRow hc with rfl | ⟨hc, _⟩
  · exact Or.inr hci.symm
  · exact Or.inl ⟨c, hc, hci⟩

lemma saveRow_id_mem_of_mem {store : List α} {e : α} {i : β}
    (h : ∃ c ∈ store, idOf c = i) : ∃ c ∈ saveRow idOf store e, idOf c = i := by
  rcases h with ⟨c, hc, hci⟩
  by_cases hne : idOf c = idOf e
  · exact ⟨e, saveRow_mem_self e, hne ▸ hci⟩
  · exact ⟨c, saveRow_mem_of_mem hc hne, hci⟩

lemma saveRow_id_mem_self {store : List α} (e : α) :
    ∃ c ∈ saveRow idOf store e, idOf c = idOf e :=
  ⟨e, saveRow_mem_self e, rfl⟩

/-- Looking up the saved id finds exactly the saved row. -/
lemma find?_saveRow_self (store : List α) (e : α) :
    (saveRow idOf store e).find? (fun c => idOf c = idOf e) = some e := by
  unfold saveRow
  split
  · rename_i hany
    induction store with
    | nil => simp at hany
    | cons x xs ih =>
        by_cases hid : idOf x = idOf e
        · simp [hid]
        · have hxs : xs.any (fun x => idOf x = idOf e) = true := by
            simpa [List.any_cons, hid] using hany
          simp only [List.map_cons, if_neg hid]
          rw [@List.find?_cons_of_neg _ (fun c => decide (idOf c = idOf e)) x _ (by simp [hid])]
          exact ih hxs
  · rename_i hany
    rw [List.find?_append]
    have hnone : store.find? (fun c => idOf c = idOf e) = none := by
      rw [List.find?_eq_none]
      intro x hx
      simp only [decide_eq_true_eq]
      intro hid
      exact hany (List.any_eq_true.mpr ⟨x, hx, decide_eq_true hid⟩)
    simp [hnone]

/-- A lookup whose predicate rejects the saved row and every row sharing its
id is unaffected by a save. -/
lemma find?_saveRow_ne (store : List α) (e : α) (p : α → Bool)
    (hp : ∀ c, p c = true → idOf c ≠ idOf e) (hpe : p e = false) :
    (saveRow idOf store e).find? p = store.find? p := by
  have hmap : ∀ l : List α,
      (l.map (fun x => if idOf x = idOf e then e else x)).find? p = l.find? p := by
    intro l
    induction l with
    | nil => rfl
    | cons x xs ih =>
        by_cases hid : idOf x = idOf e
        · have hx : p x = false := by
            cases hpx : p x
            · rfl
            · exact absurd hid (hp x hpx)
          simp only [List.map_cons, if_pos hid]
          rw [@List.find?_cons_of_neg _ p e _ (by simp [hpe]),
            @List.find?_cons_of_neg _ p x xs (by simp [hx])]
          exact ih
        · simp only [List.map_cons, if_neg hid]
          cases hpx : p x
          · rw [@List.find?_cons_of_neg _ p x _ (by simp [hpx]),
              @List.find?_cons_of_neg _ p x xs (by simp [hpx])]
            exact ih
          · rw [@List.find?_cons_of_pos _ p x _ hpx, @List.find?_cons_of_pos _ p x xs hpx]
  unfold saveRow
  split
  · exact hmap store
  · rw [List.find?_append]
    cases hfind : store.find? p with
    | none =>
        rw [@List.find?_cons_of_neg _ p e _ (by simp [hpe])]
        simp
    | some c => rfl

end StoreLemmas

lemma jsTruthyInt_isSome {o : Option Int} (h : jsTruthyInt o = true) : o.isSome := by
  cases o with
  | none => simp [jsTruthyInt] at h
  | some n => rfl

lemma getOrCreateChain_id (store : List ChainE) (i : String) :
    (getOrCreateChain store i).id = i := by
  unfold getOrCreateChain findChain
  cases hf : store.find? (fun c => c.id = i) with
  | none => rfl
  | some c =>
      show c.id = i
      have hp := List.find?_some hf
      exact of_decide_eq_true hp

lemma githubChainUpsert_id (chain : ChainE) (g : GithubChain) (relayRow : Option ChainE) :
    (githubChainUpsert chain g relayRow).id = chain.id := rfl

/-- Every chain written by the github-chain upsert has `relay` set iff
`paraId` is set: both are guarded by the same condition. -/
lemma githubChainUpsert_relay_paraId (chain : ChainE) (g : GithubChain)
    (relayRow : Option ChainE) :
    ((githubChainUpsert chain g relayRow).relay.isSome ↔
      (githubChainUpsert chain g relayRow).paraId.isSome) := by
  unfold githubChainUpsert
  by_cases h : relayRow.isSome = true ∧ jsTruthyInt g.paraId = true
  · obtain ⟨h1, h2⟩ := h
    simp only [if_pos (⟨h1, h2⟩ : relayRow.isSome = true ∧ jsTruthyInt g.paraId = true)]
    simp [Option.isSome_map, h1, jsTruthyInt_isSome h2]
  · simp [if_neg h]

lemma updateChainsLoop_relay_paraId (gs : List GithubChain) :
    ∀ (store : List ChainE) (dels : List String),
      (∀ c ∈ store, (c.relay.isSome ↔ c.paraId.isSome) ∨ c.id ∈ dels) →
      ∀ c ∈ (updateChainsLoop store dels gs).1,
        (c.relay.isSome ↔ c.paraId.isSome) ∨ c.id ∈ (updateChainsLoop store dels gs).2 := by
  induction gs with
  | nil =>
      intro store dels h
      simpa [updateChainsLoop] using h
  | cons g rest ih =>
      intro store dels h
      simp only [updateChainsLoop]
      apply ih
      intro c hc
      simp only [saveChain] at hc
      rcases mem_saveRow hc with rfl | ⟨hc, hne⟩
      · exact Or.inl (githubChainUpsert_relay_paraId _ _ _)
      · rcases h c hc with hok | hdel
        · exact Or.inl hok
        · refine Or.inr (List.mem_filter.mpr ⟨hdel, ?_⟩)
          simp only [githubChainUpsert_id, getOrCreateChain_id] at hne
          simpa using hne

/-- C4: for every chain persisted by `updateChainsFromGithub`, `relay` is set
iff `paraId` is set; and the per-record mapping stores both as null whenever
the relay lookup failed to resolve or the source record has no (truthy)
`paraId` — the two fields are never left half-set. -/
theorem chains_relay_iff_paraId (store : List ChainE) (github : List GithubChain) :
    (∀ c ∈ updateChainsFromGithub store github, (c.relay.isSome ↔ c.paraId.isSome)) ∧
    (∀ (chain : ChainE) (g : GithubChain) (relayRow : Option ChainE),
      relayRow = none ∨ jsTruthyInt g.paraId = false →
      (githubChainUpsert chain g relayRow).relay = none ∧
        (githubChainUpsert chain g relayRow).paraId = none) := by
  constructor
  · intro c hc
    unfold updateChainsFromGithub at hc
    rcases List.mem_filter.mp hc with ⟨hmem, hnotdel⟩
    have h0 : ∀ c ∈ store, (c.relay.isSome ↔ c.paraId.isSome) ∨
        c.id ∈ store.map (fun c => c.id) :=
      fun c hc => Or.inr (List.mem_map.mpr ⟨c, hc, rfl⟩)
    rcases updateChainsLoop_relay_paraId github store _ h0 c hmem with hok | hdel
    · exact hok
    · exact absurd hdel (by simpa using hnotdel)
  · intro chain g relayRow h
    have hcond : ¬ (relayRow.isSome = true ∧ jsTruthyInt g.paraId = true) := by
      rcases h with rfl | h
      · simp
      · simp [h]
    unfold githubChainUpsert
    simp [if_neg hcond]

/-- Witness for C4 at a concrete input: a single incoming record with no
relay produces a chain row with both `relay` and `paraId` null. -/
theorem chains_relay_iff_paraId_witness :
    (({ id := "kusama" } : ChainE) ∈ updateChainsFromGithub [] [{ id := "kusama" }]) ∧
    (({ id := "kusama" } : ChainE).relay.isSome ↔ ({ id := "kusama" } : ChainE).paraId.isSome) :=
  ⟨by decide, (chains_relay_iff_paraId [] [{ id := "kusama" }]).1 _ (by decide)⟩

/-- Splitting the incoming list splits the reconciliation loop. -/
lemma updateChainsLoop_append (xs ys : List GithubChain) :
    ∀ (store : List ChainE) (dels : List String),
      updateChainsLoop store dels (xs ++ ys) =
        updateChainsLoop (updateChainsLoop store dels xs).1 (updateChainsLoop store dels xs).2 ys := by
  induction xs with
  | nil => intro store dels; rfl
  | cons g rest ih =>
      intro store dels
      simp only [List.cons_append, updateChainsLoop]
      exact ih _ _

/-- An id that no incoming record carries keeps its lookup result. -/
lemma updateChainsLoop_find?_stable (gs : List GithubChain) :
    ∀ (store : List ChainE) (dels : List String) (i : String),
      (∀ g ∈ gs, g.id ≠ i) →
      (updateChainsLoop store dels gs).1.find? (fun c => c.id = i) =
        store.find? (fun c => c.id = i) := by
  induction gs with
  | nil => intro store dels i _; rfl
  | cons g rest ih =>
      intro store dels i hne
      simp only [updateChainsLoop]
      rw [ih _ _ _ (fun g' hg' => hne g' (List.mem_cons_of_mem _ hg'))]
      simp only [saveChain]
      apply find?_saveRow_ne
      · intro c hc
        simp only [githubChainUpsert_id, getOrCreateChain_id]
        intro hci
        have hcid : c.id = i := of_decide_eq_true hc
        exact hne g (List.mem_cons_self g rest) (hci ▸ hcid)
      · simp only [githubChainUpsert_id, getOrCreateChain_id]
        exact decide_eq_false (fun h => hne g (List.mem_cons_self g rest) h)

/-- The id set after the loop is the initial id set plus the incoming ids. -/
lemma updateChainsLoop_ids (gs : List GithubChain) :
    ∀ (store : List ChainE) (dels : List String) (i : String),
      (∃ c ∈ (updateChainsLoop store dels gs).1, c.id = i) ↔
        ((∃ c ∈ store, c.id = i) ∨ ∃ g ∈ gs, g.id = i) := by
  induction gs with
  | nil =>
      intro store dels i
      simp [updateChainsLoop]
  | cons g rest ih =>
      intro store dels i
      simp only [updateChainsLoop]
      rw [ih]
      constructor
      · rintro (h | h)
        · simp only [saveChain] at h
          rcases saveRow_id_mem h with h | h
          · exact Or.inl h
          · exact Or.inr ⟨g, List.mem_cons_self g rest,
              by simpa [githubChainUpsert_id, getOrCreateChain_id] using h.symm⟩
        · rcases h with ⟨g', hg', hgi⟩
          exact Or.inr ⟨g', List.mem_cons_of_mem _ hg', hgi⟩
      · rintro (h | ⟨g', hg', hgi⟩)
        · exact Or.inl (saveRow_id_mem_of_mem h)
        · rcases List.mem_cons.mp hg' with rfl | hg'
          · refine Or.inl ?_
            have := @saveRow_id_mem_self ChainE String _ (fun x : ChainE => x.id)
              store (githubChainUpsert (getOrCreateChain store g'.id) g'
                (if jsTruthyStr g'.relay then store.find? (fun c => some c.id = g'.relay) else none))
            simpa [saveChain, githubChainUpsert_id, getOrCreateChain_id, hgi] using this
          · exact Or.inr ⟨g', hg', hgi⟩

/-- The deletion set after the loop: exactly the initial ids that no incoming
record reaffirmed. -/
lemma updateChainsLoop_dels (gs : List GithubChain) :
    ∀ (store : List ChainE) (dels : List String) (i : String),
      i ∈ (updateChainsLoop store dels gs).2 ↔ (i ∈ dels ∧ ∀ g ∈ gs, g.id ≠ i) := by
  induction gs with
  | nil =>
      intro store dels i
      simp [updateChainsLoop]
  | cons g rest ih =>
      intro store dels i
      simp only [updateChainsLoop]
      rw [ih]
      constructor
      · rintro ⟨hmem, hrest⟩
        rcases List.mem_filter.mp hmem with ⟨hdels, hne⟩
        refine ⟨hdels, ?_⟩
        intro g' hg'
        rcases List.mem_cons.mp hg' with rfl | hg'
        · exact fun heq => (by simpa using hne : ¬ i = g'.id) heq.symm
        · exact hrest g' hg'
      · rintro ⟨hdels, hall⟩
        refine ⟨List.mem_filter.mpr ⟨hdels, ?_⟩, fun g' hg' => hall g' (List.mem_cons_of_mem _ hg')⟩
        exact decide_eq_true (fun heq => hall g (List.mem_cons_self g rest) heq.symm)

/-- `find?` commutes with a `filter` that keeps every candidate match. -/
lemma find?_filter_of_imp {β : Type} (l : List β) (pred f : β → Bool)
    (h : ∀ c ∈ l, pred c = true → f c = true) :
    (l.filter f).find? pred = l.find? pred := by
  induction l with
  | nil => rfl
  | cons x xs ih =>
      have ih2 := ih (fun c hc hp => h c (List.mem_cons_of_mem _ hc) hp)
      by_cases hpx : pred x = true
      · have hfx := h x (List.mem_cons_self x xs) hpx
        rw [List.filter_cons_of_pos hfx, @List.find?_cons_of_pos _ pred x _ hpx,
          @List.find?_cons_of_pos _ pred x xs hpx]
      · cases hfx : f x
        · rw [List.filter_cons_of_neg (by simp [hfx]),
            @List.find?_cons_of_neg _ pred x xs (by simp at hpx; simp [hpx])]
          exact ih2
        · rw [List.filter_cons_of_pos hfx,
            @List.find?_cons_of_neg _ pred x _ (by simp at hpx; simp [hpx]),
            @List.find?_cons_of_neg _ pred x xs (by simp at hpx; simp [hpx])]
          exact ih2

/-- The closed form of the mapping `updateChainsFromGithub` applies to the
incoming record at position `k`: the relay lookup succeeds exactly when the
referenced id was persisted before the step or carried by an earlier incoming
record. -/
def chainRelayResolved (store : List ChainE) (github : List GithubChain) (k : ℕ)
    (g : GithubChain) : Bool :=
  jsTruthyStr g.relay &&
    ((store.map (fun c => c.id) ++ (github.take k).map (fun x => x.id)).contains
      (g.relay.getD ""))

def appliedChainMapping (store : List ChainE) (github : List GithubChain) (k : ℕ)
    (g : GithubChain) : ChainE :=
  { getOrCreateChain store g.id with
    isTestnet := g.isTestnet.getD false
    name := g.name
    account := g.account
    subscanUrl := g.subscanUrl
    rpcs := (g.rpcs.getD []).map (fun url => { url := url, isHealthy := false })
    paraId := if chainRelayResolved store github k g ∧ jsTruthyInt g.paraId then g.paraId else none
    relay := if chainRelayResolved store github k g ∧ jsTruthyInt g.paraId then g.relay else none }

lemma githubChainUpsert_eq_applied (store : List ChainE) (github : List GithubChain)
    (k : ℕ) (g : GithubChain) (base : ChainE) (relayRow : Option ChainE)
    (hbase : base = getOrCreateChain store g.id)
    (hsome : relayRow.isSome = chainRelayResolved store github k g)
    (hmap : relayRow.isSome = true → relayRow.map (fun r => r.id) = g.relay) :
    githubChainUpsert base g relayRow = appliedChainMapping store github k g := by
  subst hbase
  unfold githubChainUpsert appliedChainMapping
  have hiff : (relayRow.isSome = true ∧ jsTruthyInt g.paraId = true) ↔
      (chainRelayResolved store github k g = true ∧ jsTruthyInt g.paraId = true) := by
    rw [hsome]
  by_cases hc : relayRow.isSome = true ∧ jsTruthyInt g.paraId = true
  · have hc2 := hiff.mp hc
    rw [if_pos hc, if_pos hc, if_pos hc2, if_pos hc2, hmap hc.1]
  · have hc2 := fun h => hc (hiff.mpr h)
    rw [if_neg hc, if_neg hc, if_neg hc2, if_neg hc2]

lemma find?_saveRow_self2 {α β : Type} [DecidableEq β] {idOf : α → β} (store : List α) (e : α)
    (i : β) (hi : idOf e = i) :
    (saveRow idOf store e).find? (fun c => idOf c = i) = some e := by
  subst hi
  exact find?_saveRow_self store e

/-- The chain persisted for the incoming record at position `k` carries
exactly the fields of `appliedChainMapping` (incoming ids duplicate-free). -/
lemma updateChains_find_applied (store : List ChainE) (github : List GithubChain)
    (hnodup : (github.map (fun x => x.id)).Nodup) (k : ℕ) (hk : k < github.length) :
    (updateChainsFromGithub store github).find? (fun c => c.id = github[k].id) =
      some (appliedChainMapping store github k github[k]) := by
  have hsplit : github.take k ++ github[k] :: github.drop (k + 1) = github := by
    conv_rhs => rw [← List.take_append_drop k github, List.drop_eq_getElem_cons hk]
  have hnd : ((github.take k).map (fun x => x.id) ++
      github[k].id :: (github.drop (k + 1)).map (fun x => x.id)).Nodup := by
    have h1 := hnodup
    rw [← hsplit, List.map_append, List.map_cons] at h1
    exact h1
  have hid_tk : ∀ g' ∈ github.take k, g'.id ≠ github[k].id := by
    intro g' hg' heq
    rcases List.nodup_append.mp hnd with ⟨_, _, hdisj⟩
    exact hdisj (List.mem_map.mpr ⟨g', hg', heq⟩) (List.mem_cons_self _ _)
  have hid_dr : ∀ g' ∈ github.drop (k + 1), g'.id ≠ github[k].id := by
    intro g' hg' heq
    rcases List.nodup_append.mp hnd with ⟨_, hnd2, _⟩
    exact (List.nodup_cons.mp hnd2).1 (heq ▸ List.mem_map.mpr ⟨g', hg', rfl⟩)
  have hg_mem : github[k] ∈ github := List.getElem_mem hk
  have hnotdel : github[k].id ∉ (updateChainsLoop store (store.map (fun c => c.id)) github).2 := by
    intro hmem
    rcases (updateChainsLoop_dels github store _ _).mp hmem with ⟨_, hall⟩
    exact hall github[k] hg_mem rfl
  unfold updateChainsFromGithub
  rw [find?_filter_of_imp]
  · have hloop : updateChainsLoop store (store.map (fun c => c.id)) github =
        updateChainsLoop
          (updateChainsLoop store (store.map (fun c => c.id)) (github.take k)).1
          (updateChainsLoop store (store.map (fun c => c.id)) (github.take k)).2
          (github[k] :: github.drop (k + 1)) := by
      conv_lhs => rw [← hsplit]
      exact updateChainsLoop_append _ _ _ _
    rw [hloop]
    simp only [updateChainsLoop]
    rw [updateChainsLoop_find?_stable (github.drop (k + 1)) _ _ _ hid_dr]
    simp only [saveChain]
    rw [find?_saveRow_self2 _ _ _ (by simp [githubChainUpsert_id, getOrCreateChain_id])]
    refine congrArg some ?_
    apply githubChainUpsert_eq_applied
    · unfold getOrCreateChain findChain
      rw [updateChainsLoop_find?_stable (github.take k) _ _ _ hid_tk]
    · cases hrel : github[k].relay with
      | none => simp [jsTruthyStr, hrel, chainRelayResolved]
      | some rid =>
          by_cases hemp : rid = ""
          · simp [jsTruthyStr, hrel, hemp, chainRelayResolved]
          · have hmemiff : ∀ i : String,
                (i ∈ store.map (fun c => c.id) ++ (github.take k).map (fun x => x.id)) ↔
                  ((∃ c ∈ store, c.id = i) ∨ ∃ g' ∈ github.take k, g'.id = i) := by
              intro i
              constructor
              · intro h
                rcases List.mem_append.mp h with h | h
                · rcases List.mem_map.mp h with ⟨c', hc', hcid'⟩
                  exact Or.inl ⟨c', hc', hcid'⟩
                · rcases List.mem_map.mp h with ⟨g', hg', hgid'⟩
                  exact Or.inr ⟨g', hg', hgid'⟩
              · intro h
                rcases h with ⟨c', hc', hcid'⟩ | ⟨g', hg', hgid'⟩
                · exact List.mem_append.mpr (Or.inl (List.mem_map.mpr ⟨c', hc', hcid'⟩))
                · exact List.mem_append.mpr (Or.inr (List.mem_map.mpr ⟨g', hg', hgid'⟩))
            rw [if_pos (by simp [jsTruthyStr, hrel, hemp])]
            unfold chainRelayResolved
            rw [Bool.eq_iff_iff]
            rw [List.find?_isSome]
            constructor
            · rintro ⟨c, hc, hp⟩
              have hcid : some c.id = some rid := of_decide_eq_true hp
              have hex : ∃ c ∈ (updateChainsLoop store (store.map (fun c => c.id))
                  (github.take k)).1, c.id = rid :=
                ⟨c, hc, Option.some_inj.mp hcid⟩
              have hdisj := (updateChainsLoop_ids (github.take k) store
                (store.map (fun c => c.id)) rid).mp hex
              have hmem := (hmemiff rid).mpr hdisj
              rw [hrel]
              simp only [Bool.and_eq_true]
              constructor
              · simp [jsTruthyStr, hemp]
              · simpa using hmem
            · intro h
              have h2 : rid ∈ store.map (fun c => c.id) ++
                  (github.take k).map (fun x => x.id) := by
                have h3 := (Bool.and_eq_true _ _ ▸ h).2
                simpa [hrel] using h3
              rcases (updateChainsLoop_ids (github.take k) store
                  (store.map (fun c => c.id)) rid).mpr ((hmemiff rid).mp h2) with ⟨c, hc, hcid⟩
              exact ⟨c, hc, by simp [hcid, hrel]⟩
    · intro hs
      by_cases htr : jsTruthyStr github[k].relay = true
      · rw [if_pos htr] at hs ⊢
        cases hf : (updateChainsLoop store (store.map (fun c => c.id))
            (github.take k)).1.find? (fun c => some c.id = github[k].relay) with
        | none => rw [hf] at hs; simp at hs
        | some c =>
            have hp := List.find?_some hf
            have h2 : some c.id = github[k].relay := of_decide_eq_true hp
            simp [h2]
      · rw [if_neg htr] at hs
        simp at hs
  · intro c hc hp
    have hcid : c.id = github[k].id := of_decide_eq_true hp
    refine decide_eq_true ?_
    intro hcont
    exact hnotdel (by simpa [hcid] using hcont)

/-- Every incoming chain record ends up persisted under its id. -/
lemma updateChains_exists (store : List ChainE) (github : List GithubChain) :
    ∀ g ∈ github, ∃ c ∈ updateChainsFromGithub store github, c.id = g.id := by
  intro g hg
  unfold updateChainsFromGithub
  rcases (updateChainsLoop_ids github store (store.map (fun c => c.id)) g.id).mpr
    (Or.inr ⟨g, hg, rfl⟩) with ⟨c, hc, hcid⟩
  refine ⟨c, List.mem_filter.mpr ⟨hc, ?_⟩, hcid⟩
  refine decide_eq_true ?_
  intro hcont
  have hmem : c.id ∈ (updateChainsLoop store (store.map (fun c => c.id)) github).2 := by
    simpa using hcont
  rcases (updateChainsLoop_dels github store _ _).mp hmem with ⟨_, hall⟩
  exact hall g hg hcid.symm

/-- A persisted chain whose id no incoming record carries is deleted. -/
lemma updateChains_deleted (store : List ChainE) (github : List GithubChain) :
    ∀ c0 ∈ store, (∀ g ∈ github, g.id ≠ c0.id) →
      ∀ c ∈ updateChainsFromGithub store github, c.id ≠ c0.id := by
  intro c0 hc0 hnog c hc
  unfold updateChainsFromGithub at hc
  rcases List.mem_filter.mp hc with ⟨_, hc2⟩
  intro heq
  have hdel : c0.id ∈ (updateChainsLoop store (store.map (fun c => c.id)) github).2 :=
    (updateChainsLoop_dels github store _ c0.id).mpr
      ⟨List.mem_map.mpr ⟨c0, hc0, rfl⟩, hnog⟩
  have hdel2 : c.id ∈ (updateChainsLoop store (store.map (fun c => c.id)) github).2 :=
    heq ▸ hdel
  have hnotin : c.id ∉ (updateChainsLoop store (store.map (fun c => c.id)) github).2 := by
    simpa using hc2
  exact hnotin hdel2

/-!  ## Tokens and EVM networks  -/

/-- The three token variants of the polymorphic `Token.squidImplementationDetail`
union (`NativeToken` / `OrmlToken` / `Erc20Token`). -/
inductive TokenKind
  | native
  | orml
  | erc20
  deriving Repr, DecidableEq

/-- A quote snapshot (`TokenRates`): one entry per configured currency code,
carrying the relayed quote when the feed supplied one. -/
abbrev TokenRatesSnap : Type := List (String × Option ℚ)

/-- The persisted `Token` entity with its variant detail flattened: shared
fields (`symbol`, `decimals`, `coingeckoId`, `isTestnet`, `rates`), variant
fields (`existentialDeposit`, `stateKey`, `contractAddress`), and the anchor
relations stored as row ids (`chain` = squidImplementationDetailChain,
`evmNetwork` = squidImplementationDetailEvmNetwork). -/
structure TokenE where
  id : String
  isTypeOf : TokenKind
  isTestnet : Bool := false
  symbol : Option String := none
  decimals : Option Int := none
  coingeckoId : Option String := none
  rates : Option TokenRatesSnap := none
  existentialDeposit : Option Int := none
  stateKey : Option String := none
  contractAddress : Option String := none
  chain : Option String := none
  evmNetwork : Option String := none
  deriving Repr, DecidableEq

/-- Modelled from the spec: the helper `nativeTokenId` (src/helpers, not under
src/) — a deterministic token id derived from the kind and the anchor id. -/
def nativeTokenId (anchorId symbol : String) : String :=
  anchorId ++ "-native-" ++ symbol

/-- Modelled from the spec: the helper `ormlTokenId` (src/helpers). -/
def ormlTokenId (chainId symbol : String) : String :=
  chainId ++ "-orml-" ++ symbol

/-- Modelled from the spec: the helper `erc20TokenId` (src/helpers). -/
def erc20TokenId (networkId contractAddress : String) : String :=
  networkId ++ "-erc20-" ++ contractAddress

/-- Modelled from the spec: the helper `getOrCreateToken` (src/helpers) —
fetch the token with the given id, or create a fresh one of the given kind. -/
def getOrCreateToken (store : List TokenE) (kind : TokenKind) (i : String) : TokenE :=
  match store.find? (fun t => t.id = i) with
  | some t => t
  | none => { id := i, isTypeOf := kind }

/-- Modelled from the spec: the helper `saveToken` (src/helpers) — persist the
token row. -/
def saveToken (store : List TokenE) (t : TokenE) : List TokenE :=
  saveRow (fun x => x.id) store t

/-- The persisted `EvmNetwork` entity.  Its primary id is the canonical
numeric chain id as a string and is absent (`none`) on a freshly constructed
entity until the first successful probe assigns it.  `substrateChain` and
`nativeToken` relations are stored as row ids. -/
structure EvmNetworkE where
  id : Option String := none
  isTestnet : Bool := false
  sortIndex : Option Int := none
  name : Option String := none
  explorerUrl : Option String := none
  rpcs : List EthereumRpc := []
  isHealthy : Bool := false
  substrateChain : Option String := none
  nativeToken : Option String := none
  deriving Repr, DecidableEq

/-- An incoming EVM-network record of the github config feed
(`evm-networks.json`). -/
structure GithubEvmNetwork where
  name : Option String := none
  isTestnet : Option Bool := none
  explorerUrl : Option String := none
  rpcs : Option (List String) := none
  substrateChainId : Option String := none
  symbol : Option String := none
  decimals : Option Int := none
  deriving Repr, DecidableEq

/-- The reply of one `eth_chainId` POST: HTTP status plus the parsed
(`parseInt`) payload — `none` when the payload is not a number (NaN). -/
structure EthRpcResponse where
  status : Int
  result : Option Nat
  deriving Repr, DecidableEq

/-- `typeof substrateChain?.id !== 'string'` on a persisted entity. -/
def isStandaloneEvmNetworkE (e : EvmNetworkE) : Bool :=
  ¬ e.substrateChain.isSome

/-- `typeof substrateChain?.id === 'string'` on a persisted entity. -/
def isSubstrateEvmNetworkE (e : EvmNetworkE) : Bool :=
  e.substrateChain.isSome

/-- A github record is standalone when it has no `substrateChainId` and does
have a `name` (processor.ts line 366). -/
def isStandaloneGithubEvm (g : GithubEvmNetwork) : Bool :=
  g.substrateChainId.isNone && g.name.isSome

/-- A github record is substrate-linked when it has a `substrateChainId`. -/
def isSubstrateGithubEvm (g : GithubEvmNetwork) : Bool :=
  g.substrateChainId.isSome

/-- Probe one Ethereum RPC endpoint (processor.ts lines 441-473): healthy iff
the request succeeded with HTTP 200 and a numeric payload; the reported id is
the decimal rendering of the parsed number. -/
def evmRpcProbe (probe : String → Option EthRpcResponse) (rpc : EthereumRpc) :
    EthereumRpc × Option String :=
  match probe rpc.url with
  | none => ({ rpc with isHealthy := false }, none)
  | some resp =>
      if resp.status ≠ 200 then ({ rpc with isHealthy := false }, none)
      else
        match resp.result with
        | none => ({ rpc with isHealthy := false }, none)
        | some n => ({ rpc with isHealthy := true }, some (toString n))

/-- Probe a whole network (processor.ts lines 440-490): probe every endpoint,
elect the first successfully reported id as the entity id, force endpoints
reporting a different id to unhealthy, and set network health to the OR of
endpoint healths. -/
def evmElectId (e1 : EvmNetworkE) (ethereumIds : List (Option String)) : EvmNetworkE :=
  match ethereumIds.filterMap (fun x => x) with
  | [] => e1
  | newId :: _ =>
      { e1 with
        id := some newId
        rpcs := (e1.rpcs.zip ethereumIds).map
          (fun (p : EthereumRpc × Option String) =>
            if p.2 = some newId then p.1 else { p.1 with isHealthy := false }) }

def probeEvmNetwork (probe : String → Option EthRpcResponse) (e : EvmNetworkE) :
    EvmNetworkE :=
  let probed : List (EthereumRpc × Option String) :=
    e.rpcs.map (fun rpc => evmRpcProbe probe rpc)
  let e2 : EvmNetworkE :=
    evmElectId { e with rpcs := probed.map (fun p => p.1) } (probed.map (fun p => p.2))
  { e2 with isHealthy := 0 < (e2.rpcs.filter (fun r => r.isHealthy)).length }

lemma probeEvmNetwork_def (probe : String → Option EthRpcResponse) (e : EvmNetworkE) :
    probeEvmNetwork probe e =
      { evmElectId
          { e with rpcs := (e.rpcs.map (fun rpc => evmRpcProbe probe rpc)).map (fun p => p.1) }
          ((e.rpcs.map (fun rpc => evmRpcProbe probe rpc)).map (fun p => p.2)) with
        isHealthy := 0 <
          ((evmElectId
            { e with rpcs := (e.rpcs.map (fun rpc => evmRpcProbe probe rpc)).map (fun p => p.1) }
            ((e.rpcs.map (fun rpc => evmRpcProbe probe rpc)).map (fun p => p.2))).rpcs.filter
              (fun r => r.isHealthy)).length } := rfl

/-- Build the working entities for the standalone partition
(processor.ts lines 386-404): match the stored network by `name`, or start a
fresh entity; overwrite the mapped fields; clear `substrateChain`. -/
def standaloneEvmEntities (networks : List EvmNetworkE) (github : List GithubEvmNetwork) :
    List EvmNetworkE :=
  (github.filter (fun g => isStandaloneGithubEvm g)).map (fun g =>
    let entity :=
      match networks.find? (fun e => e.name = g.name) with
      | some e => e
      | none => {}
    { entity with
      isTestnet := g.isTestnet.getD false
      name := g.name
      explorerUrl := g.explorerUrl
      rpcs := (g.rpcs.getD []).map (fun url => { url := url, isHealthy := false })
      substrateChain := none })

/-- Build the working entities for the substrate-linked partition
(processor.ts lines 405-434): match the stored network by its linked chain id;
drop the record when the chain is not persisted; inherit `isTestnet`, the name
fallback and `nativeToken` from the chain. -/
def substrateEvmEntity (chains : List ChainE) (networks : List EvmNetworkE)
    (g : GithubEvmNetwork) : Option EvmNetworkE :=
  let entity :=
    match networks.find? (fun e => e.substrateChain = g.substrateChainId) with
    | some e => e
    | none => ({} : EvmNetworkE)
  let entity :=
    { entity with
      isTestnet := g.isTestnet.getD false
      name := g.name
      explorerUrl := g.explorerUrl
      rpcs := (g.rpcs.getD []).map
        (fun url => ({ url := url, isHealthy := false } : EthereumRpc)) }
  match chains.find? (fun c => some c.id = g.substrateChainId) with
  | none => none
  | some substrateChain =>
      some { entity with
        substrateChain := some substrateChain.id
        isTestnet := substrateChain.isTestnet
        name := jsOrStr g.name substrateChain.name
        nativeToken := substrateChain.nativeToken }

def substrateEvmEntities (chains : List ChainE) (networks : List EvmNetworkE)
    (github : List GithubEvmNetwork) : List EvmNetworkE :=
  (github.filter (fun g => isSubstrateGithubEvm g)).filterMap
    (fun g => substrateEvmEntity chains networks g)

/-- Provision the native token of a standalone network
(processor.ts lines 498-510): symbol from the record's standalone github
entry matched by name, defaulting to `'ETH'`; decimals defaulting to `18`. -/
def evmStandaloneGithubMatch (github : List GithubEvmNetwork) (e : EvmNetworkE) :
    Option GithubEvmNetwork :=
  (github.filter (fun g => isStandaloneGithubEvm g)).find? (fun n => n.name = e.name)

def evmNativeTokenSymbol (github : List GithubEvmNetwork) (e : EvmNetworkE) : String :=
  jsOrStrD ((evmStandaloneGithubMatch github e).bind (fun n => n.symbol)) "ETH"

def evmNativeTokenDecimals (github : List GithubEvmNetwork) (e : EvmNetworkE) : Int :=
  match (evmStandaloneGithubMatch github e).bind (fun n => n.decimals) with
  | some d => d
  | none => 18

def evmNetworkNativeToken (github : List GithubEvmNetwork) (e : EvmNetworkE)
    (tokens : List TokenE) : List TokenE × String :=
  let symbol := evmNativeTokenSymbol github e
  let decimals : Int := evmNativeTokenDecimals github e
  let tid := nativeTokenId (e.id.getD "") symbol
  let tok := getOrCreateToken tokens TokenKind.native tid
  let tok := { tok with symbol := some symbol, decimals := some decimals }
  (saveToken tokens tok, tid)

/-- Process one working entity (processor.ts lines 439-514): probe, drop it
when no id could be resolved, reaffirm its id in the deletion map of its own
partition, and provision the native token for standalone networks.  The state
threads the two deletion maps and the token store. -/
def processEvmEntity (probe : String → Option EthRpcResponse)
    (github : List GithubEvmNetwork)
    (st : List String × List String × List TokenE) (e0 : EvmNetworkE) :
    (List String × List String × List TokenE) × Option EvmNetworkE :=
  let e := probeEvmNetwork probe e0
  match e.id with
  | none => (st, none)
  | some i =>
      let delSt1 := if isStandaloneEvmNetworkE e then st.1.filter (fun x => x ≠ i) else st.1
      let delSub1 :=
        if isSubstrateEvmNetworkE e then st.2.1.filter (fun x => x ≠ i) else st.2.1
      if isStandaloneEvmNetworkE e then
        let r := evmNetworkNativeToken github e st.2.2
        ((delSt1, delSub1, r.1), some { e with nativeToken := some r.2 })
      else
        ((delSt1, delSub1, st.2.2), some e)

/-- The initial deletion maps (processor.ts lines 377-383): one id map per
partition of the persisted networks; for persisted rows the two partitions
are complementary, so the `invalid` list is empty. -/
def evmDelStandalone0 (networks : List EvmNetworkE) : List String :=
  (networks.filter (fun e => isStandaloneEvmNetworkE e)).filterMap (fun e => e.id)

def evmDelSubstrate0 (networks : List EvmNetworkE) : List String :=
  (networks.filter (fun e => isSubstrateEvmNetworkE e)).filterMap (fun e => e.id)

def evmDelInvalid (networks : List EvmNetworkE) : List String :=
  (networks.filter
    (fun e => ¬ isStandaloneEvmNetworkE e ∧ ¬ isSubstrateEvmNetworkE e)).filterMap
    (fun e => e.id)

/-- The two incoming partitions, in processing order. -/
def evmEntitiesOf (chains : List ChainE) (networks : List EvmNetworkE)
    (github : List GithubEvmNetwork) : List EvmNetworkE :=
  standaloneEvmEntities networks github ++ substrateEvmEntities chains networks github

/-- One step of the per-entity fold. -/
def evmFoldStep (probe : String → Option EthRpcResponse) (github : List GithubEvmNetwork)
    (acc : (List String × List String × List TokenE) × List EvmNetworkE)
    (e : EvmNetworkE) : (List String × List String × List TokenE) × List EvmNetworkE :=
  let r := processEvmEntity probe github acc.1 e
  (r.1, match r.2 with | some u => acc.2 ++ [u] | none => acc.2)

def evmFold (probe : String → Option EthRpcResponse) (github : List GithubEvmNetwork)
    (init : (List String × List String × List TokenE) × List EvmNetworkE)
    (entities : List EvmNetworkE) :
    (List String × List String × List TokenE) × List EvmNetworkE :=
  entities.foldl (evmFoldStep probe github) init

/-- `updateEvmNetworksFromGithub` (processor.ts lines 362-526) as a function
of the persisted chains, the persisted networks, the incoming github records,
the probe responses and the token store.  Returns the persisted networks and
the token store after the step. -/
def updateEvmNetworksFromGithub (chains : List ChainE) (networks : List EvmNetworkE)
    (github : List GithubEvmNetwork) (probe : String → Option EthRpcResponse)
    (tokens : List TokenE) : List EvmNetworkE × List TokenE :=
  let folded := evmFold probe github
    ((evmDelStandalone0 networks, evmDelSubstrate0 networks, tokens), [])
    (evmEntitiesOf chains networks github)
  let deletedIds := evmDelInvalid networks ++ folded.1.1 ++ folded.1.2.1
  let saved := folded.2.foldl (fun s e => saveRow (fun x => x.id) s e) networks
  (saved.filter (fun e =>
      match e.id with
      | some i => ¬ deletedIds.contains i
      | none => true),
    folded.1.2.2)


/-- When some endpoint reported an id, `evmElectId` elects the first reported
id and forces every endpoint whose report differs to unhealthy. -/
lemma evmElectId_spec (e1 : EvmNetworkE) (ids : List (Option String)) (newId : String)
    (hfirst : (ids.filterMap (fun x => x)).head? = some newId) :
    (evmElectId e1 ids).id = some newId ∧
    (evmElectId e1 ids).rpcs = (e1.rpcs.zip ids).map
      (fun (p : EthereumRpc × Option String) =>
        if p.2 = some newId then p.1 else { p.1 with isHealthy := false }) := by
  unfold evmElectId
  split
  · rename_i heq
    rw [heq] at hfirst
    simp at hfirst
  · rename_i newId2 tail heq
    rw [heq] at hfirst
    simp only [List.head?_cons, Option.some_inj] at hfirst
    subst hfirst
    exact ⟨rfl, rfl⟩

lemma zip_map_fst_snd {γ δ : Type} (l : List (γ × δ)) :
    (l.map (fun p => p.1)).zip (l.map (fun p => p.2)) = l := by
  rw [List.zip_map']
  simp

lemma probeEvmNetwork_rpcs_length (probe : String → Option EthRpcResponse)
    (e : EvmNetworkE) : (probeEvmNetwork probe e).rpcs.length = e.rpcs.length := by
  show (evmElectId _ _).rpcs.length = e.rpcs.length
  unfold evmElectId
  split
  · simp
  · simp

/-- C2: the canonical id elected by `probeEvmNetwork` is the id reported by
the first endpoint (in list order) that responded successfully with a valid
numeric chain id; every endpoint whose reported id differs from the canonical
id ends the probe step unhealthy — even when its own response was valid (an
endpoint reports an id exactly when its response had HTTP status 200 and a
numeric payload). -/
theorem evm_canonical_id_first_and_disagreeing_unhealthy
    (probe : String → Option EthRpcResponse) (e : EvmNetworkE) (newId : String)
    (hfirst : ((e.rpcs.map (fun rpc => (evmRpcProbe probe rpc).2)).filterMap
      (fun x => x)).head? = some newId) :
    (probeEvmNetwork probe e).id = some newId ∧
    (∀ k, (hk : k < e.rpcs.length) → ∀ r : EthereumRpc,
      (probeEvmNetwork probe e).rpcs[k]? = some r →
      (evmRpcProbe probe (e.rpcs.get ⟨k, hk⟩)).2 ≠ some newId → r.isHealthy = false) ∧
    (∀ (rpc : EthereumRpc) (s : String),
      (evmRpcProbe probe rpc).2 = some s ↔
        ∃ n : Nat, probe rpc.url = some { status := 200, result := some n } ∧
          s = toString n) := by
  have hmap2 : (e.rpcs.map (fun rpc => evmRpcProbe probe rpc)).map (fun p => p.2) =
      e.rpcs.map (fun rpc => (evmRpcProbe probe rpc).2) := by
    rw [List.map_map]; rfl
  have hfirst2 : (((e.rpcs.map (fun rpc => evmRpcProbe probe rpc)).map
      (fun p => p.2)).filterMap (fun x => x)).head? = some newId := by
    rw [hmap2]; exact hfirst
  have hspec := evmElectId_spec
    { e with rpcs := (e.rpcs.map (fun rpc => evmRpcProbe probe rpc)).map (fun p => p.1) }
    ((e.rpcs.map (fun rpc => evmRpcProbe probe rpc)).map (fun p => p.2)) newId hfirst2
  refine ⟨hspec.1, ?_, ?_⟩
  · intro k hk r hr hne
    have hrw : (probeEvmNetwork probe e).rpcs =
        (((e.rpcs.map (fun rpc => evmRpcProbe probe rpc)).map (fun p => p.1)).zip
          ((e.rpcs.map (fun rpc => evmRpcProbe probe rpc)).map (fun p => p.2))).map
          (fun (p : EthereumRpc × Option String) =>
            if p.2 = some newId then p.1 else { p.1 with isHealthy := false }) := hspec.2
    rw [zip_map_fst_snd, List.map_map] at hrw
    rw [hrw] at hr
    rcases List.getElem?_eq_some_iff.mp hr with ⟨hk2, hval⟩
    rw [List.getElem_map] at hval
    rw [← hval]
    simp only [Function.comp_apply]
    rw [List.get_eq_getElem] at hne
    rw [if_neg (by simpa using hne)]
  · intro rpc s
    unfold evmRpcProbe
    cases hp : probe rpc.url with
    | none => simp
    | some resp =>
        obtain ⟨st, r⟩ := resp
        by_cases hst : st = 200
        · subst hst
          cases r with
          | none => simp
          | some n => simp [eq_comm]
        · simp [hst]

/-- Example probe: endpoint `a` unreachable, `b` reports chain id 5, `c`
reports chain id 7. -/
def exProbe : String → Option EthRpcResponse := fun u =>
  if u = "a" then none
  else if u = "b" then some { status := 200, result := some 5 }
  else some { status := 200, result := some 7 }

/-- Example network with three endpoints. -/
def exNetwork : EvmNetworkE :=
  { name := some "N",
    rpcs := [{ url := "a", isHealthy := false }, { url := "b", isHealthy := false },
      { url := "c", isHealthy := false }] }

/-- Witness for C2 at a concrete input: the canonical id is the one reported
by `b` (the first responsive endpoint), and endpoint `c` — whose valid
response reported 7 ≠ 5 — is unhealthy after the probe. -/
theorem evm_canonical_id_witness :
    (probeEvmNetwork exProbe exNetwork).id = some "5" ∧
    ({ url := "c", isHealthy := false } : EthereumRpc).isHealthy = false :=
  ⟨(evm_canonical_id_first_and_disagreeing_unhealthy exProbe exNetwork "5" (by decide)).1,
    (evm_canonical_id_first_and_disagreeing_unhealthy exProbe exNetwork "5"
      (by decide)).2.1 2 (by decide) { url := "c", isHealthy := false } (by decide) (by decide)⟩

/-- Example substrate chain `X` (a testnet named `Xchain`). -/
def exChainX : ChainE :=
  { id := "X", isTestnet := true, name := some "Xchain", nativeToken := some "X-native-T" }

/-- Example substrate-linked github record carrying its own name `Lin`. -/
def exGithubLinked : GithubEvmNetwork :=
  { name := some "Lin", substrateChainId := some "X", rpcs := some ["u"] }

/-- Example probe where every endpoint reports chain id 1. -/
def exProbeOne : String → Option EthRpcResponse :=
  fun _ => some { status := 200, result := some 1 }

/-- Counterexample for C8: a substrate-linked record whose chain `X`
(named `Xchain`) is persisted carries its own name `Lin`; the persisted
network inherits the chain's testnet flag but keeps the record's name `Lin` —
the display name is NOT overridden by the linked chain's name. -/
theorem evm_substrate_inherited_name_counterexample :
    ((updateEvmNetworksFromGithub [exChainX] [] [exGithubLinked] exProbeOne []).1.map
      (fun e => (e.substrateChain, e.isTestnet, e.name))) =
        [(some "X", true, some "Lin")] ∧
    exChainX.name = some "Xchain" ∧ exChainX.isTestnet = true ∧
    exGithubLinked.name = some "Lin" := by
  constructor
  · rfl
  · exact ⟨rfl, rfl, rfl⟩

/-- C8 (amended): for a substrate-linked record whose referenced chain is
persisted, the built entity inherits the chain's testnet flag and native
token, overriding the record; its display name is the record's name when
truthy, falling back to the chain's name otherwise.  The probe step preserves
these fields. -/
theorem evm_substrate_inherits_testnet_and_name_fallback
    (chains : List ChainE) (networks : List EvmNetworkE) (g : GithubEvmNetwork)
    (c : ChainE) (hfind : chains.find? (fun c => some c.id = g.substrateChainId) = some c) :
    (∃ e, substrateEvmEntity chains networks g = some e ∧
      e.isTestnet = c.isTestnet ∧ e.name = jsOrStr g.name c.name ∧
      e.nativeToken = c.nativeToken ∧ e.substrateChain = some c.id) ∧
    (∀ (probe : String → Option EthRpcResponse) (x : EvmNetworkE),
      (probeEvmNetwork probe x).isTestnet = x.isTestnet ∧
      (probeEvmNetwork probe x).name = x.name ∧
      (probeEvmNetwork probe x).nativeToken = x.nativeToken ∧
      (probeEvmNetwork probe x).substrateChain = x.substrateChain) := by
  constructor
  · unfold substrateEvmEntity
    rw [hfind]
    exact ⟨_, rfl, rfl, rfl, rfl, rfl⟩
  · intro probe x
    have h : ∀ (e1 : EvmNetworkE) (ids : List (Option String)),
        (evmElectId e1 ids).isTestnet = e1.isTestnet ∧
        (evmElectId e1 ids).name = e1.name ∧
        (evmElectId e1 ids).nativeToken = e1.nativeToken ∧
        (evmElectId e1 ids).substrateChain = e1.substrateChain := by
      intro e1 ids
      unfold evmElectId
      split
      · exact ⟨rfl, rfl, rfl, rfl⟩
      · exact ⟨rfl, rfl, rfl, rfl⟩
    exact h _ _

/-- Witness for the amended C8 at a concrete input. -/
theorem evm_substrate_inherits_witness :
    (substrateEvmEntity [exChainX] [] exGithubLinked).map
      (fun e => (e.isTestnet, e.name, e.nativeToken, e.substrateChain)) =
      some (true, some "Lin", some "X-native-T", some "X") := by
  obtain ⟨⟨e, he, h1, h2, h3, h4⟩, _⟩ :=
    evm_substrate_inherits_testnet_and_name_fallback [exChainX] [] exGithubLinked exChainX
      (by decide)
  rw [he, Option.map_some', h1, h2, h3, h4]
  rfl

lemma getOrCreateToken_id (store : List TokenE) (kind : TokenKind) (i : String) :
    (getOrCreateToken store kind i).id = i := by
  unfold getOrCreateToken
  cases hf : store.find? (fun t => t.id = i) with
  | none => rfl
  | some t =>
      show t.id = i
      have hp := List.find?_some hf
      exact of_decide_eq_true hp

/-- C10: for every standalone EVM network that is persisted, the provisioned
native token's symbol is the matching config record's symbol when truthy and
`'ETH'` otherwise, and its decimals are the record's numeric decimals when
present and `18` otherwise; the processed entity's `nativeToken` relation
points at that token. -/
theorem evm_standalone_native_token_defaults
    (github : List GithubEvmNetwork) (e : EvmNetworkE) (tokens : List TokenE) :
    (((evmNetworkNativeToken github e tokens).1.find?
        (fun t => t.id = (evmNetworkNativeToken github e tokens).2)).map
        (fun t => (t.symbol, t.decimals)) =
      some (some (evmNativeTokenSymbol github e), some (evmNativeTokenDecimals github e))) ∧
    ((evmStandaloneGithubMatch github e).bind (fun n => n.symbol) = none →
      evmNativeTokenSymbol github e = "ETH") ∧
    (∀ s, (evmStandaloneGithubMatch github e).bind (fun n => n.symbol) = some s → s ≠ "" →
      evmNativeTokenSymbol github e = s) ∧
    ((evmStandaloneGithubMatch github e).bind (fun n => n.decimals) = none →
      evmNativeTokenDecimals github e = 18) ∧
    (∀ d, (evmStandaloneGithubMatch github e).bind (fun n => n.decimals) = some d →
      evmNativeTokenDecimals github e = d) ∧
    (∀ (probe : String → Option EthRpcResponse)
        (st : List String × List String × List TokenE) (e0 : EvmNetworkE),
      isStandaloneEvmNetworkE (probeEvmNetwork probe e0) = true →
      (probeEvmNetwork probe e0).id.isSome = true →
      (processEvmEntity probe github st e0).2 =
        some { probeEvmNetwork probe e0 with
          nativeToken := some (evmNetworkNativeToken github (probeEvmNetwork probe e0) st.2.2).2 }) := by
  refine ⟨?_, ?_, ?_, ?_, ?_, ?_⟩
  · have h := @find?_saveRow_self2 TokenE String _ (fun t => t.id) tokens
      { getOrCreateToken tokens TokenKind.native
          (nativeTokenId (e.id.getD "") (evmNativeTokenSymbol github e)) with
        symbol := some (evmNativeTokenSymbol github e)
        decimals := some (evmNativeTokenDecimals github e) }
      (nativeTokenId (e.id.getD "") (evmNativeTokenSymbol github e))
      (by simp [getOrCreateToken_id])
    exact (congrArg (Option.map (fun t => (t.symbol, t.decimals))) h).trans rfl
  · intro hnone
    unfold evmNativeTokenSymbol
    rw [hnone]
    rfl
  · intro s hs hne
    unfold evmNativeTokenSymbol
    rw [hs]
    unfold jsOrStrD jsTruthyStr
    simp [hne]
  · intro hnone
    unfold evmNativeTokenDecimals
    rw [hnone]
  · intro d hd
    unfold evmNativeTokenDecimals
    rw [hd]
  · intro probe st e0 hstand hid
    simp only [processEvmEntity]
    cases hi : (probeEvmNetwork probe e0).id with
    | none => rw [hi] at hid; simp at hid
    | some i =>
        simp only [hstand, if_true]

/-- Example standalone github record with no symbol and no decimals. -/
def exGithubFoo : GithubEvmNetwork := { name := some "Foo", rpcs := some ["w"] }

/-- Example standalone network entity already carrying its canonical id. -/
def exNetFoo : EvmNetworkE := { id := some "100", name := some "Foo" }

/-- Witness for C10 at a concrete input: a record omitting symbol and
decimals yields the defaults `'ETH'` and `18`. -/
theorem evm_standalone_native_token_witness :
    evmNativeTokenSymbol [exGithubFoo] exNetFoo = "ETH" ∧
    evmNativeTokenDecimals [exGithubFoo] exNetFoo = 18 :=
  ⟨(evm_standalone_native_token_defaults [exGithubFoo] exNetFoo []).2.1 (by decide),
    (evm_standalone_native_token_defaults [exGithubFoo] exNetFoo []).2.2.2.1 (by decide)⟩

/-!  ## Chain metadata extraction (`updateChainData`)  -/

/-- A JS value that may be an array of strings, a scalar string, or
`undefined` (the shape of `chainProperties.tokenSymbol`). -/
inductive JsStrVal
  | arr (l : List String)
  | scalar (s : String)
  | undef
  deriving Repr, DecidableEq

/-- A JS value that may be an array of numbers, a scalar number, or
`undefined` (the shape of `chainProperties.tokenDecimals`). -/
inductive JsNumVal
  | arr (l : List Int)
  | scalar (n : Int)
  | undef
  deriving Repr, DecidableEq

/-- One entry of `metadata.asLatest.lookup.types` as the external decoder
exposes it: the last path segment, whether the type is a variant, and the
variant name/index pairs (`asVariant.variants`). -/
structure LookupType where
  pathLast : String
  isVariant : Bool
  variants : List (String × Int)
  deriving Repr, DecidableEq

/-- The decoded bundle of one successful extraction attempt: the batched RPC
results (`chain_getBlockHash`, `state_getRuntimeVersion`, `state_getMetadata`,
`system_chain`, `system_properties`) after the out-of-scope metadata decoder
ran.  An attempt that fails at any point (connection, timeout, decode) yields
no bundle. -/
structure ExtractResult where
  genesisHash : String
  specName : Option String := none
  specVersion : Option String := none
  implName : Option String := none
  chainName : Option String := none
  ss58Format : Option Int := none
  chainSS58 : Option Int := none
  chainTokenSymbol : JsStrVal := JsStrVal.undef
  chainTokenDecimals : JsNumVal := JsNumVal.undef
  existentialDeposit : Option Int := none
  lookupTypes : List LookupType := []
  deriving Repr, DecidableEq

/-- Modelled from the spec: the storage-key hashing primitive `twox64Concat`
(src/helpers, not under src/) — an injective encoding standing in for the
keyed hash. -/
def twox64Concat (key : List Int) : String :=
  "twox64concat:" ++ toString key

/-- Modelled from the spec: the per-chain override table
`tokenSymbolWorkarounds` (src/helpers) — overrides for symbol list, decimals
and storage keys that take precedence over decoded values.  Passed in as
data. -/
structure TokenSymbolWorkaround where
  symbols : Option (List String) := none
  decimals : Option (List Int) := none
  stateKeys : Option (List (String × String)) := none
  deriving Repr, DecidableEq

/-- JS `array[0]` on a string-or-array value (`Array.isArray(x) ? x[0] : x`);
an empty array yields `undefined`, rendered "undefined" by string context. -/
def jsStrHead : JsStrVal → String
  | JsStrVal.arr l => l.headD "undefined"
  | JsStrVal.scalar s => s
  | JsStrVal.undef => "undefined"

/-- JS `Array.isArray(x) ? x[0] : x` on a number-or-array value. -/
def jsNumHead : JsNumVal → Option Int
  | JsNumVal.arr l => l.head?
  | JsNumVal.scalar n => some n
  | JsNumVal.undef => none

/-- JS `x[index]` on a number-or-array value: indexing a non-array yields
`undefined`. -/
def jsNumIndex : JsNumVal → ℕ → Option Int
  | JsNumVal.arr l, i => l[i]?
  | JsNumVal.scalar _, _ => none
  | JsNumVal.undef, _ => none

/-- The attempt loop of `updateChainData` (processor.ts lines 219, 225):
attempt `k` connects to `healthyRpcUrls[(k-1) % n]`; stop at the first
success; `fuel` counts the remaining attempts of the `2 × n` budget.  Returns
the trace of attempts made (attempt number and url) and the first success. -/
def attemptLoop (extract : String → ℕ → Option ExtractResult) (urls : List String) :
    ℕ → ℕ → List (ℕ × String) × Option (ℕ × ExtractResult)
  | 0, _ => ([], none)
  | fuel + 1, k =>
      let url := urls.getD ((k - 1) % urls.length) ""
      match extract url k with
      | some r => ([(k, url)], some (k, r))
      | none =>
          let r2 := attemptLoop extract urls fuel (k + 1)
          ((k, url) :: r2.1, r2.2)

/-- Lines 261-282: locate the `CurrencyId` variant type, look up the `Token`
discriminant, and build the symbol → storage-key table from the `TokenSymbol`
variant type. -/
def tokenStateKeyLookup (lookupTypes : List LookupType) : List (String × String) :=
  let currencyIdDef := lookupTypes.find?
    (fun t => t.pathLast = "CurrencyId" && t.isVariant)
  let currencyIdVariants := (currencyIdDef.map (fun t => t.variants)).getD []
  let tokensCurrencyIdIndex := (currencyIdVariants.find?
    (fun v => v.1 = "Token")).map (fun v => v.2)
  let tokenSymbolDef := lookupTypes.find? (fun t => t.pathLast = "TokenSymbol")
  let tokenSymbolVariants := (tokenSymbolDef.map (fun t => t.variants)).getD []
  tokenSymbolVariants.map
    (fun v => (v.1, twox64Concat [tokensCurrencyIdIndex.getD 0, v.2]))

/-- The orml-token reconciliation of the success path (lines 288-312):
upsert one `OrmlToken` per symbol that has a storage key, then delete every
previously persisted orml token of this chain that was not reaffirmed. -/
def ormlTokensUpdate (chainId : String) (symbols : List String)
    (tokenDecimals : JsNumVal) (stateKeys : List (String × String))
    (tokens : List TokenE) : List TokenE :=
  let existing := tokens.filter
    (fun t => t.chain = some chainId && t.isTypeOf = TokenKind.orml)
  let start : List String × List TokenE := (existing.map (fun t => t.id), tokens)
  let stepped : List String × List TokenE := (symbols.enum).foldl
    (fun (acc : List String × List TokenE) sym =>
      match (stateKeys.find? (fun p => p.1 = sym.2)).map (fun p => p.2) with
      | none => acc
      | some sk =>
          let tid := ormlTokenId chainId sym.2
          let tok := getOrCreateToken acc.2 TokenKind.orml tid
          let tok := { tok with
            symbol := some sym.2
            decimals := jsNumIndex tokenDecimals sym.1
            stateKey := some sk
            chain := some chainId }
          (acc.1.filter (fun i => i ≠ tid), saveToken acc.2 tok))
    start
  stepped.2.filter (fun t => ¬ stepped.1.contains t.id)

/-- The success path of one extraction attempt (lines 288-339): reconcile
orml tokens, upsert the native token, re-load the chain and set the decoded
fields.  Returns the updated chain store and token store. -/
def chainExtractSuccess (chainId : String)
    (workarounds : String → Option TokenSymbolWorkaround) (res : ExtractResult)
    (chains : List ChainE) (tokens : List TokenE) : List ChainE × List TokenE :=
  let tokenSymbol : JsStrVal :=
    match (workarounds chainId).bind (fun w => w.symbols) with
    | some l => JsStrVal.arr l
    | none => res.chainTokenSymbol
  let tokenDecimals : JsNumVal :=
    match (workarounds chainId).bind (fun w => w.decimals) with
    | some l => JsNumVal.arr l
    | none => res.chainTokenDecimals
  let tokenStateKeys : List (String × String) :=
    match (workarounds chainId).bind (fun w => w.stateKeys) with
    | some l => l
    | none => tokenStateKeyLookup res.lookupTypes
  let symbols : List String :=
    match tokenSymbol with
    | JsStrVal.arr l => l
    | _ => []
  let tokens1 := ormlTokensUpdate chainId symbols tokenDecimals tokenStateKeys tokens
  let chain2 := getOrCreateChain chains chainId
  let nativeSymbol := jsStrHead tokenSymbol
  let ntid := nativeTokenId chainId nativeSymbol
  let ntok := getOrCreateToken tokens1 TokenKind.native ntid
  let ntok := { ntok with
    symbol := some nativeSymbol
    decimals := jsNumHead tokenDecimals
    existentialDeposit := res.existentialDeposit }
  let tokens2 := saveToken tokens1 ntok
  let chain3 := { chain2 with
    genesisHash := some res.genesisHash
    ss58Prefix :=
      match res.chainSS58 with
      | some p => some p
      | none =>
          match res.ss58Format with
          | some p => some p
          | none => some 42
    chainName := res.chainName
    implName := res.implName
    specName := res.specName
    specVersion := res.specVersion
    nativeToken := some (getOrCreateToken tokens2 TokenKind.native ntid).id }
  (saveChain chains chain3, tokens2)

/-- The probed endpoint list (line 174: health = result of the probe). -/
def probedRpcs (probeOk : String → Bool) (chain0 : ChainE) : List SubstrateRpc :=
  chain0.rpcs.map (fun r => { r with isHealthy := probeOk r.url })

/-- The healthy url list (line 213). -/
def healthyUrls (probeOk : String → Bool) (chain0 : ChainE) : List String :=
  ((probedRpcs probeOk chain0).filter (fun r => r.isHealthy)).map (fun r => r.url)

/-- Process one chain of `updateChainData` (lines 169-357): probe every
endpoint, persist the health flags, then run the attempt loop with budget
`2 × number of healthy endpoints`; on success apply the success path, on
exhaustion mark the chain unhealthy and leave the token store untouched. -/
def updateChainDataForChain (probeOk : String → Bool)
    (extract : String → ℕ → Option ExtractResult)
    (workarounds : String → Option TokenSymbolWorkaround)
    (st : List ChainE × List TokenE) (chain0 : ChainE) : List ChainE × List TokenE :=
  let chain1 := { chain0 with
    rpcs := probedRpcs probeOk chain0
    isHealthy := 0 < (healthyUrls probeOk chain0).length }
  let chains1 := saveChain st.1 chain1
  let maxAttempts := (healthyUrls probeOk chain0).length * 2
  match (attemptLoop extract (healthyUrls probeOk chain0) maxAttempts 1).2 with
  | some kr => chainExtractSuccess chain0.id workarounds kr.2 chains1 st.2
  | none =>
      let chain2 := { chain1 with isHealthy := false }
      (saveChain chains1 chain2, st.2)

/-- `updateChainData` (lines 164-360): process every persisted chain.  The
source fans the chains out with bounded parallelism, but each chain touches
only its own row and its own chain-scoped token ids, so the step is modelled
as a sequential fold over the snapshot of the chain store. -/
def updateChainData (probeOk : String → Bool)
    (extract : String → ℕ → Option ExtractResult)
    (workarounds : String → Option TokenSymbolWorkaround)
    (chains : List ChainE) (tokens : List TokenE) : List ChainE × List TokenE :=
  chains.foldl (updateChainDataForChain probeOk extract workarounds) (chains, tokens)

/-- The attempt trace always lists consecutive attempt numbers from the start
attempt, each paired with its round-robin url, and never exceeds the fuel. -/
lemma attemptLoop_trace (extract : String → ℕ → Option ExtractResult)
    (urls : List String) :
    ∀ (fuel k : ℕ),
      (attemptLoop extract urls fuel k).1 =
        (List.range' k (attemptLoop extract urls fuel k).1.length).map
          (fun j => (j, urls.getD ((j - 1) % urls.length) "")) ∧
      (attemptLoop extract urls fuel k).1.length ≤ fuel := by
  intro fuel
  induction fuel with
  | zero =>
      intro k
      simp [attemptLoop]
  | succ f ih =>
      intro k
      simp only [attemptLoop]
      cases hx : extract (urls.getD ((k - 1) % urls.length) "") k with
      | some r => simp [List.range']
      | none =>
          rcases ih (k + 1) with ⟨h1, h2⟩
          constructor
          · simp only [List.length_cons]
            rw [List.range'_succ, List.map_cons]
            exact congrArg (fun l => (k, urls.getD ((k - 1) % urls.length) "") :: l) h1
          · simpa using Nat.succ_le_succ h2

/-- If the first success of the budget happens at attempt `k0`, the loop
stops there: the trace is exactly attempts `k .. k0`. -/
lemma attemptLoop_first_success (extract : String → ℕ → Option ExtractResult)
    (urls : List String) :
    ∀ (fuel k k0 : ℕ) (r : ExtractResult), k ≤ k0 → k0 < k + fuel →
      extract (urls.getD ((k0 - 1) % urls.length) "") k0 = some r →
      (∀ j, k ≤ j → j < k0 → extract (urls.getD ((j - 1) % urls.length) "") j = none) →
      attemptLoop extract urls fuel k =
        ((List.range' k (k0 - k + 1)).map
          (fun j => (j, urls.getD ((j - 1) % urls.length) "")), some (k0, r)) := by
  intro fuel
  induction fuel with
  | zero =>
      intro k k0 r hk hk0 _ _
      omega
  | succ f ih =>
      intro k k0 r hk hk0 hsucc hfail
      simp only [attemptLoop]
      rcases Nat.eq_or_lt_of_le hk with rfl | hlt
      · rw [hsucc]
        simp [List.range']
      · rw [hfail k (le_refl k) hlt]
        have h2 := ih (k + 1) k0 r hlt (by omega) hsucc
          (fun j hj1 hj2 => hfail j (by omega) hj2)
        rw [h2]
        have harith : k0 - k + 1 = (k0 - (k + 1) + 1) + 1 := by omega
        rw [harith, List.range'_succ, List.map_cons]
        rfl

/-- When every attempt of the budget fails, the loop makes exactly `fuel`
attempts and reports no success. -/
lemma attemptLoop_all_fail (extract : String → ℕ → Option ExtractResult)
    (urls : List String) :
    ∀ (fuel k : ℕ),
      (∀ j, k ≤ j → j < k + fuel → extract (urls.getD ((j - 1) % urls.length) "") j = none) →
      attemptLoop extract urls fuel k =
        ((List.range' k fuel).map (fun j => (j, urls.getD ((j - 1) % urls.length) "")),
          none) := by
  intro fuel
  induction fuel with
  | zero =>
      intro k _
      simp [attemptLoop]
  | succ f ih =>
      intro k hfail
      simp only [attemptLoop]
      rw [hfail k (le_refl k) (by omega)]
      rw [ih (k + 1) (fun j hj1 hj2 => hfail j (by omega) (by omega))]
      rw [List.range'_succ, List.map_cons]

/-- C3: for a chain with `n ≥ 1` healthy endpoints the metadata-extraction
loop makes at most `2 × n` attempts, visiting the healthy urls in round-robin
order starting from the first healthy one; it stops at the first successful
attempt; and when every attempt of the budget fails it makes exactly `2 × n`
attempts and the persisted chain row ends with `isHealthy = false`. -/
theorem chain_retry_budget_round_robin
    (probeOk : String → Bool) (extract : String → ℕ → Option ExtractResult)
    (workarounds : String → Option TokenSymbolWorkaround)
    (st : List ChainE × List TokenE) (chain0 : ChainE)
    (hn : 0 < (healthyUrls probeOk chain0).length) :
    ((attemptLoop extract (healthyUrls probeOk chain0)
        ((healthyUrls probeOk chain0).length * 2) 1).1.length ≤
      (healthyUrls probeOk chain0).length * 2) ∧
    ((attemptLoop extract (healthyUrls probeOk chain0)
        ((healthyUrls probeOk chain0).length * 2) 1).1 =
      (List.range' 1 (attemptLoop extract (healthyUrls probeOk chain0)
        ((healthyUrls probeOk chain0).length * 2) 1).1.length).map
        (fun k => (k, (healthyUrls probeOk chain0).getD
          ((k - 1) % (healthyUrls probeOk chain0).length) ""))) ∧
    (∀ k0 r, 1 ≤ k0 → k0 ≤ (healthyUrls probeOk chain0).length * 2 →
      extract ((healthyUrls probeOk chain0).getD
        ((k0 - 1) % (healthyUrls probeOk chain0).length) "") k0 = some r →
      (∀ j, 1 ≤ j → j < k0 →
        extract ((healthyUrls probeOk chain0).getD
          ((j - 1) % (healthyUrls probeOk chain0).length) "") j = none) →
      (attemptLoop extract (healthyUrls probeOk chain0)
        ((healthyUrls probeOk chain0).length * 2) 1).1.length = k0) ∧
    ((∀ j, 1 ≤ j → j ≤ (healthyUrls probeOk chain0).length * 2 →
        extract ((healthyUrls probeOk chain0).getD
          ((j - 1) % (healthyUrls probeOk chain0).length) "") j = none) →
      (attemptLoop extract (healthyUrls probeOk chain0)
          ((healthyUrls probeOk chain0).length * 2) 1).1.length =
        (healthyUrls probeOk chain0).length * 2 ∧
      ((updateChainDataForChain probeOk extract workarounds st chain0).1.find?
        (fun c => c.id = chain0.id)).map (fun c => c.isHealthy) = some false) := by
  refine ⟨(attemptLoop_trace extract _ _ 1).2, (attemptLoop_trace extract _ _ 1).1, ?_, ?_⟩
  · intro k0 r hk1 hk2 hsucc hfail
    rw [attemptLoop_first_success extract (healthyUrls probeOk chain0)
      ((healthyUrls probeOk chain0).length * 2) 1 k0 r hk1 (by omega) hsucc
      (fun j hj1 hj2 => hfail j hj1 hj2)]
    simp only [List.length_map, List.length_range']
    omega
  · intro hall
    have h := attemptLoop_all_fail extract (healthyUrls probeOk chain0)
      ((healthyUrls probeOk chain0).length * 2) 1
      (fun j hj1 hj2 => hall j hj1 (by omega))
    constructor
    · rw [h]
      simp
    · simp only [updateChainDataForChain]
      rw [h]
      exact (congrArg (Option.map (fun c => c.isHealthy))
        (@find?_saveRow_self2 ChainE String _ (fun c => c.id) _
          { chain0 with rpcs := probedRpcs probeOk chain0, isHealthy := false }
          chain0.id rfl)).trans rfl

/-- Example chain with three endpoints. -/
def exChainRpc3 : ChainE :=
  { id := "C",
    rpcs := [{ url := "a", isHealthy := false }, { url := "b", isHealthy := false },
      { url := "c", isHealthy := false }] }

/-- Witness for C3 at a concrete input: three healthy endpoints and every
attempt failing makes exactly 6 attempts and marks the chain unhealthy. -/
theorem chain_retry_budget_witness :
    (attemptLoop (fun _ _ => none) (healthyUrls (fun _ => true) exChainRpc3)
      ((healthyUrls (fun _ => true) exChainRpc3).length * 2) 1).1.length = 6 ∧
    ((updateChainDataForChain (fun _ => true) (fun _ _ => none) (fun _ => none)
      ([exChainRpc3], []) exChainRpc3).1.find? (fun c => c.id = exChainRpc3.id)).map
      (fun c => c.isHealthy) = some false :=
  have h := (chain_retry_budget_round_robin (fun _ => true) (fun _ _ => none) (fun _ => none)
    ([exChainRpc3], []) exChainRpc3 (by decide)).2.2.2 (fun _ _ _ => rfl)
  ⟨h.1.trans (by decide), h.2⟩

/-- C6: when the retry budget of a chain is exhausted (no attempt succeeded),
the step marks the chain unhealthy and leaves the token store — in particular
every previously persisted orml token of that chain — completely unchanged;
conversely the token store can only change when some extraction attempt
succeeded. -/
theorem chain_budget_exhausted_tokens_untouched (probeOk : String → Bool)
    (extract : String → ℕ → Option ExtractResult)
    (workarounds : String → Option TokenSymbolWorkaround)
    (st : List ChainE × List TokenE) (chain0 : ChainE)
    (hfail : (attemptLoop extract (healthyUrls probeOk chain0)
      ((healthyUrls probeOk chain0).length * 2) 1).2 = none) :
    (updateChainDataForChain probeOk extract workarounds st chain0).2 = st.2 ∧
    ((updateChainDataForChain probeOk extract workarounds st chain0).1.find?
      (fun c => c.id = chain0.id)).map (fun c => c.isHealthy) = some false ∧
    (∀ (extract2 : String → ℕ → Option ExtractResult),
      (updateChainDataForChain probeOk extract2 workarounds st chain0).2 ≠ st.2 →
      (attemptLoop extract2 (healthyUrls probeOk chain0)
        ((healthyUrls probeOk chain0).length * 2) 1).2.isSome = true) := by
  refine ⟨?_, ?_, ?_⟩
  · simp only [updateChainDataForChain]
    rw [hfail]
  · simp only [updateChainDataForChain]
    rw [hfail]
    exact (congrArg (Option.map (fun c => c.isHealthy))
      (@find?_saveRow_self2 ChainE String _ (fun c => c.id) _
        { chain0 with rpcs := probedRpcs probeOk chain0, isHealthy := false }
        chain0.id rfl)).trans rfl
  · intro extract2 hch
    cases hs : (attemptLoop extract2 (healthyUrls probeOk chain0)
        ((healthyUrls probeOk chain0).length * 2) 1).2 with
    | some kr => rfl
    | none =>
        exfalso
        apply hch
        simp only [updateChainDataForChain]
        rw [hs]

/-- Example previously persisted orml token of chain `C`. -/
def exOrmlToken : TokenE :=
  { id := "C-orml-KSM", isTypeOf := TokenKind.orml, chain := some "C" }

/-- Witness for C6 at a concrete input: all six attempts fail, the token
store is untouched and the chain is unhealthy. -/
theorem chain_budget_exhausted_witness :
    (updateChainDataForChain (fun _ => true) (fun _ _ => none) (fun _ => none)
      ([exChainRpc3], [exOrmlToken]) exChainRpc3).2 = [exOrmlToken] :=
  (chain_budget_exhausted_tokens_untouched (fun _ => true) (fun _ _ => none) (fun _ => none)
    ([exChainRpc3], [exOrmlToken]) exChainRpc3 (by decide)).1

/-!  ## Testnet propagation and price refresh  -/

/-- `Object.fromEntries` keyed by chain id keeps the last entry per key, so a
lookup returns the last row carrying the id. -/
def chainsMapLookup (chains : List ChainE) (i : String) : Option ChainE :=
  chains.reverse.find? (fun c => c.id = i)

/-- Lookup in the `Object.fromEntries` map keyed by network id. -/
def evmNetworksMapLookup (networks : List EvmNetworkE) (i : String) : Option EvmNetworkE :=
  networks.reverse.find? (fun n => n.id = some i)

/-- `token.squidImplementationDetailNativeToChains`: the inverse relation of
`Chain.nativeToken`, as the database loads it. -/
def nativeToChains (chains : List ChainE) (t : TokenE) : List String :=
  (chains.filter (fun c => c.nativeToken = some t.id)).map (fun c => c.id)

/-- `token.squidImplementationDetailNativeToEvmNetworks`: the inverse relation
of `EvmNetwork.nativeToken`. -/
def nativeToEvmNetworks (networks : List EvmNetworkE) (t : TokenE) : List String :=
  (networks.filter (fun n => n.nativeToken = some t.id)).filterMap (fun n => n.id)

/-- `isTestnetToken` (processor.ts lines 604-615): AND over the testnet flags
of every resolvable referenced chain/network (anchor plus native-to
relations); unresolvable references are dropped by `filter(Boolean)`. -/
def isTestnetToken (chains : List ChainE) (networks : List EvmNetworkE) (t : TokenE) : Bool :=
  ((([t.chain].filterMap (fun x => x) ++ nativeToChains chains t).filterMap
      (fun i => chainsMapLookup chains i)).map (fun c => c.isTestnet) ++
    (([t.evmNetwork].filterMap (fun x => x) ++ nativeToEvmNetworks networks t).filterMap
      (fun i => evmNetworksMapLookup networks i)).map (fun n => n.isTestnet)).all
    (fun b => b)

/-- `updateTokensTestnetField` (lines 593-625): recompute every token's
testnet flag and save the whole set. -/
def updateTokensTestnetField (chains : List ChainE) (networks : List EvmNetworkE)
    (tokens : List TokenE) : List TokenE :=
  tokens.map (fun t => { t with isTestnet := isTestnetToken chains networks t })

/-- The configured currency list (processor.ts lines 45-59: only `usd` and
`eur` are uncommented). -/
def coingeckoCurrencies : List String := ["usd", "eur"]

/-- `updateTokenRates` (lines 627-662): clear every token's quote snapshot,
then for non-testnet tokens with a truthy price-feed id and a matching feed
entry, store the relayed quote per configured currency.  `prices` models the
feed response: id → (currency → quote). -/
def updateTokenRates (prices : String → Option (String → Option ℚ))
    (tokens : List TokenE) : List TokenE :=
  tokens.map (fun t0 =>
    let t := { t0 with rates := none }
    if t.isTestnet then t
    else if ¬ jsTruthyStr t.coingeckoId then t
    else
      match prices (t.coingeckoId.getD "") with
      | none => t
      | some rates =>
          { t with rates := some (coingeckoCurrencies.map (fun c => (c, rates c))) })

/-- C7: after the price-refresh step, a token that is testnet, or has no
truthy price-feed id, or whose id has no entry in the feed response, carries
a cleared (`none`) quote snapshot regardless of its previous value; otherwise
its snapshot holds, for each configured currency code, exactly the quote
relayed from the feed response.  All other fields are unchanged. -/
theorem token_rates_cleared_or_relayed
    (prices : String → Option (String → Option ℚ)) (tokens : List TokenE)
    (k : ℕ) (t r : TokenE)
    (ht : tokens[k]? = some t) (hr : (updateTokenRates prices tokens)[k]? = some r) :
    (t.isTestnet = true → r.rates = none) ∧
    (jsTruthyStr t.coingeckoId = false → r.rates = none) ∧
    (∀ i, t.coingeckoId = some i → prices i = none → r.rates = none) ∧
    (∀ i f, t.isTestnet = false → t.coingeckoId = some i → i ≠ "" → prices i = some f →
      r.rates = some (coingeckoCurrencies.map (fun c => (c, f c)))) ∧
    (r.id = t.id ∧ r.isTypeOf = t.isTypeOf ∧ r.symbol = t.symbol ∧
      r.coingeckoId = t.coingeckoId ∧ r.isTestnet = t.isTestnet ∧ r.chain = t.chain ∧
      r.evmNetwork = t.evmNetwork) := by
  rw [updateTokenRates, List.getElem?_map, ht] at hr
  simp only [Option.map_some', Option.some_inj] at hr
  subst hr
  refine ⟨?_, ?_, ?_, ?_, ?_⟩
  · intro htest
    simp [htest]
  · intro hcg
    by_cases h1 : t.isTestnet <;> simp [h1, hcg]
  · intro i hi hnone
    by_cases h1 : t.isTestnet
    · simp [h1]
    · by_cases h2 : jsTruthyStr t.coingeckoId
      · simp [h1, h2, hi, hnone]
      · simp [h1, h2]
  · intro i f htest hi hne hsome
    simp [htest, hi, hsome, jsTruthyStr, hne]
  · by_cases h1 : t.isTestnet
    · simp [h1]
    · by_cases h2 : jsTruthyStr t.coingeckoId
      · cases hp : prices (t.coingeckoId.getD "") with
        | none => simp [h1, h2, hp]
        | some f => simp [h1, h2, hp]
      · simp [h1, h2]

/-- Example token with a stale quote snapshot and a feed id missing from the
response. -/
def exStaleToken : TokenE :=
  { id := "T", isTypeOf := TokenKind.native, coingeckoId := some "gone",
    rates := some [("usd", some 3)] }

/-- Example empty price-feed response. -/
def exPrices : String → Option (String → Option ℚ) := fun _ => none

/-- Witness for C7 at a concrete input: the stale snapshot is cleared. -/
theorem token_rates_witness :
    ((updateTokenRates exPrices [exStaleToken]).headD exStaleToken).rates = none :=
  (token_rates_cleared_or_relayed exPrices [exStaleToken] 0 exStaleToken
    ((updateTokenRates exPrices [exStaleToken]).headD exStaleToken) rfl rfl).2.2.1
    "gone" rfl rfl

/-- `find?` returns the unique element satisfying the predicate. -/
lemma find?_eq_some_of_unique {γ : Type} {p : γ → Bool} {l : List γ} {c : γ}
    (hc : c ∈ l) (hpc : p c = true) (huniq : ∀ x ∈ l, p x = true → x = c) :
    l.find? p = some c := by
  induction l with
  | nil => simp at hc
  | cons x xs ih =>
      by_cases hpx : p x = true
      · rw [List.find?_cons_of_pos _ hpx]
        rw [huniq x (List.mem_cons_self x xs) hpx]
      · rw [List.find?_cons_of_neg _ (by simp [hpx])]
        rcases List.mem_cons.mp hc with rfl | hc2
        · exact absurd hpc hpx
        · exact ih hc2 (fun y hy hpy => huniq y (List.mem_cons_of_mem _ hy) hpy)

/-- A github record refers to a network row as its primary anchor. -/
def tokenAnchorsNet (t : TokenE) (n : EvmNetworkE) : Bool :=
  match t.evmNetwork with
  | some i => n.id = some i
  | none => false

/-- C5: after `updateTokensTestnetField`, every token's testnet flag equals
the AND of the testnet flags of every persisted chain and EVM network that
references it as primary anchor or as a native-to relation (AND over the
empty set being `true`). -/
theorem token_testnet_and_propagation
    (chains : List ChainE) (networks : List EvmNetworkE) (tokens : List TokenE)
    (hndC : (chains.map (fun c => c.id)).Nodup)
    (hndN : (networks.map (fun n => n.id)).Nodup)
    (hsomeN : ∀ n ∈ networks, n.id.isSome = true) :
    ∀ (k : ℕ) (t r : TokenE), tokens[k]? = some t →
      (updateTokensTestnetField chains networks tokens)[k]? = some r →
      r.isTestnet =
        (((chains.filter (fun c => t.chain = some c.id || c.nativeToken = some t.id)).map
            (fun c => c.isTestnet) ++
          (networks.filter (fun n => tokenAnchorsNet t n || n.nativeToken = some t.id)).map
            (fun n => n.isTestnet)).all (fun b => b)) := by
  have memLookupC : ∀ (i : String) (c : ChainE),
      chainsMapLookup chains i = some c → c ∈ chains ∧ c.id = i := by
    intro i c h
    unfold chainsMapLookup at h
    refine ⟨List.mem_reverse.mp (List.mem_of_find?_eq_some h), ?_⟩
    have hp := List.find?_some h
    exact of_decide_eq_true hp
  have injC : ∀ x ∈ chains, ∀ y ∈ chains, x.id = y.id → x = y := by
    intro x hx y hy hxy
    exact List.inj_on_of_nodup_map hndC hx hy hxy
  have lookupCself : ∀ c ∈ chains, chainsMapLookup chains c.id = some c := by
    intro c hc
    unfold chainsMapLookup
    refine find?_eq_some_of_unique (List.mem_reverse.mpr hc) (by simp) ?_
    intro x hx hpx
    exact injC x (List.mem_reverse.mp hx) c hc (of_decide_eq_true hpx)
  have memLookupN : ∀ (i : String) (n : EvmNetworkE),
      evmNetworksMapLookup networks i = some n → n ∈ networks ∧ n.id = some i := by
    intro i n h
    unfold evmNetworksMapLookup at h
    refine ⟨List.mem_reverse.mp (List.mem_of_find?_eq_some h), ?_⟩
    have hp := List.find?_some h
    exact of_decide_eq_true hp
  have injN : ∀ x ∈ networks, ∀ y ∈ networks, x.id = y.id → x = y := by
    intro x hx y hy hxy
    exact List.inj_on_of_nodup_map hndN hx hy hxy
  have lookupNself : ∀ n ∈ networks, ∀ i, n.id = some i →
      evmNetworksMapLookup networks i = some n := by
    intro n hn i hni
    unfold evmNetworksMapLookup
    refine find?_eq_some_of_unique (List.mem_reverse.mpr hn) (by simp [hni]) ?_
    intro x hx hpx
    exact injN x (List.mem_reverse.mp hx) n hn
      ((of_decide_eq_true hpx).trans hni.symm)
  intro k t r ht hr
  rw [updateTokensTestnetField, List.getElem?_map, ht] at hr
  simp only [Option.map_some', Option.some_inj] at hr
  subst hr
  show isTestnetToken chains networks t = _
  rw [Bool.eq_iff_iff]
  rw [isTestnetToken]
  rw [List.all_append, Bool.and_eq_true, List.all_append, Bool.and_eq_true]
  refine and_congr ?_ ?_
  · rw [List.all_eq_true, List.all_eq_true]
    constructor
    · intro hall b hb
      rcases List.mem_map.mp hb with ⟨c, hcf, rfl⟩
      rcases List.mem_filter.mp hcf with ⟨hcmem, hcond⟩
      rcases Bool.or_eq_true _ _ ▸ hcond with h1 | h2
      · refine hall _ (List.mem_map.mpr ⟨c, ?_, rfl⟩)
        refine List.mem_filterMap.mpr ⟨c.id, ?_, lookupCself c hcmem⟩
        refine List.mem_append.mpr (Or.inl ?_)
        simp only [List.filterMap, List.mem_singleton]
        simp [of_decide_eq_true h1]
      · refine hall _ (List.mem_map.mpr ⟨c, ?_, rfl⟩)
        refine List.mem_filterMap.mpr ⟨c.id, ?_, lookupCself c hcmem⟩
        refine List.mem_append.mpr (Or.inr ?_)
        unfold nativeToChains
        exact List.mem_map.mpr ⟨c, List.mem_filter.mpr ⟨hcmem, h2⟩, rfl⟩
    · intro hall b hb
      rcases List.mem_map.mp hb with ⟨c, hcf, rfl⟩
      rcases List.mem_filterMap.mp hcf with ⟨i, hi, hlk⟩
      rcases memLookupC i c hlk with ⟨hcmem, hcid⟩
      refine hall _ (List.mem_map.mpr ⟨c, List.mem_filter.mpr ⟨hcmem, ?_⟩, rfl⟩)
      rcases List.mem_append.mp hi with h1 | h2
      · rcases List.mem_filterMap.mp h1 with ⟨o, ho, hoi⟩
        rcases List.mem_singleton.mp ho with rfl
        refine Bool.or_eq_true _ _ ▸ Or.inl ?_
        simp [hoi, hcid]
      · unfold nativeToChains at h2
        rcases List.mem_map.mp h2 with ⟨c2, hc2f, hc2id⟩
        rcases List.mem_filter.mp hc2f with ⟨hc2mem, hc2nat⟩
        have : c2 = c := injC c2 hc2mem c hcmem (hc2id.trans hcid.symm)
        subst this
        refine Bool.or_eq_true _ _ ▸ Or.inr ?_
        exact hc2nat
  · rw [List.all_eq_true, List.all_eq_true]
    constructor
    · intro hall b hb
      rcases List.mem_map.mp hb with ⟨n, hnf, rfl⟩
      rcases List.mem_filter.mp hnf with ⟨hnmem, hcond⟩
      rcases Option.isSome_iff_exists.mp (hsomeN n hnmem) with ⟨i0, hn0⟩
      rcases Bool.or_eq_true _ _ ▸ hcond with h1 | h2
      · unfold tokenAnchorsNet at h1
        cases hanch : t.evmNetwork with
        | none => rw [hanch] at h1; simp at h1
        | some i =>
            rw [hanch] at h1
            have hni : n.id = some i := of_decide_eq_true h1
            refine hall _ (List.mem_map.mpr ⟨n, ?_, rfl⟩)
            refine List.mem_filterMap.mpr ⟨i, ?_, lookupNself n hnmem i hni⟩
            refine List.mem_append.mpr (Or.inl ?_)
            simp [hanch]
      · refine hall _ (List.mem_map.mpr ⟨n, ?_, rfl⟩)
        refine List.mem_filterMap.mpr ⟨i0, ?_, lookupNself n hnmem i0 hn0⟩
        refine List.mem_append.mpr (Or.inr ?_)
        unfold nativeToEvmNetworks
        exact List.mem_filterMap.mpr ⟨n, List.mem_filter.mpr ⟨hnmem, h2⟩, hn0⟩
    · intro hall b hb
      rcases List.mem_map.mp hb with ⟨n, hnf, rfl⟩
      rcases List.mem_filterMap.mp hnf with ⟨i, hi, hlk⟩
      rcases memLookupN i n hlk with ⟨hnmem, hnid⟩
      refine hall _ (List.mem_map.mpr ⟨n, List.mem_filter.mpr ⟨hnmem, ?_⟩, rfl⟩)
      rcases List.mem_append.mp hi with h1 | h2
      · rcases List.mem_filterMap.mp h1 with ⟨o, ho, hoi⟩
        rcases List.mem_singleton.mp ho with rfl
        refine Bool.or_eq_true _ _ ▸ Or.inl ?_
        unfold tokenAnchorsNet
        rw [hoi]
        simp [hnid]
      · unfold nativeToEvmNetworks at h2
        rcases List.mem_filterMap.mp h2 with ⟨n2, hn2f, hn2id⟩
        rcases List.mem_filter.mp hn2f with ⟨hn2mem, hn2nat⟩
        have : n2 = n := injN n2 hn2mem n hnmem (hn2id.trans hnid.symm)
        subst this
        refine Bool.or_eq_true _ _ ▸ Or.inr ?_
        exact hn2nat

/-- Example chains for the testnet-propagation scenario: `A` is a testnet and
anchors token `T1`; `B` is not a testnet and lists `T1` as its native token. -/
def exChainA : ChainE := { id := "A", isTestnet := true }

def exChainB : ChainE := { id := "B", isTestnet := false, nativeToken := some "T1" }

/-- Token referenced by chains `A` (anchor) and `B` (native-to). -/
def exTokT1 : TokenE := { id := "T1", isTypeOf := TokenKind.orml, chain := some "A" }

/-- Token referenced by no chain or network. -/
def exTokT2 : TokenE := { id := "T2", isTypeOf := TokenKind.native }

/-- Witness for C5 at a concrete input: a token referenced by chains
`A (testnet)` and `B (not testnet)` gets flag `false`; a token referenced by
nothing gets flag `true`. -/
theorem token_testnet_and_propagation_witness :
    ((updateTokensTestnetField [exChainA, exChainB] [] [exTokT1, exTokT2]).headD
      exTokT1).isTestnet = false ∧
    (((updateTokensTestnetField [exChainA, exChainB] [] [exTokT1, exTokT2]).getD 1
      exTokT2).isTestnet = true) :=
  ⟨(token_testnet_and_propagation [exChainA, exChainB] [] [exTokT1, exTokT2]
      (by decide) (by decide) (by intro n hn; simp at hn) 0 exTokT1 _ rfl rfl).trans
    (by decide),
   (token_testnet_and_propagation [exChainA, exChainB] [] [exTokT1, exTokT2]
      (by decide) (by decide) (by intro n hn; simp at hn) 1 exTokT2 _ rfl rfl).trans
    (by decide)⟩

/-- The record outcome of processing one working entity: independent of the
threaded deletion-map/token-store state. -/
def evmProcessedEntity (probe : String → Option EthRpcResponse)
    (github : List GithubEvmNetwork) (e0 : EvmNetworkE) : Option EvmNetworkE :=
  let e := probeEvmNetwork probe e0
  match e.id with
  | none => none
  | some _ =>
      if isStandaloneEvmNetworkE e then
        some
          { e with
            nativeToken :=
              some (nativeTokenId (e.id.getD "") (evmNativeTokenSymbol github e)) }
      else some e

lemma processEvmEntity_snd (probe : String → Option EthRpcResponse)
    (github : List GithubEvmNetwork) (st : List String × List String × List TokenE)
    (e : EvmNetworkE) :
    (processEvmEntity probe github st e).2 = evmProcessedEntity probe github e := by
  simp only [processEvmEntity, evmProcessedEntity]
  cases h : (probeEvmNetwork probe e).id with
  | none => rfl
  | some i =>
      by_cases hs : isStandaloneEvmNetworkE (probeEvmNetwork probe e) = true
      · simp [hs, evmNetworkNativeToken, h]
      · simp [hs]

lemma processEvmEntity_skip (probe : String → Option EthRpcResponse)
    (github : List GithubEvmNetwork) (st : List String × List String × List TokenE)
    (e : EvmNetworkE) (h : evmProcessedEntity probe github e = none) :
    (processEvmEntity probe github st e).1 = st := by
  simp only [processEvmEntity]
  simp only [evmProcessedEntity] at h
  cases hid : (probeEvmNetwork probe e).id with
  | none => rfl
  | some i =>
      rw [hid] at h
      by_cases hs : isStandaloneEvmNetworkE (probeEvmNetwork probe e) = true
      · simp [hs] at h
      · simp [hs] at h

/-- `isSubstrateEvmNetworkE` is the complement of `isStandaloneEvmNetworkE`. -/
lemma substrate_eq_not_standalone (e : EvmNetworkE) :
    isSubstrateEvmNetworkE e = !isStandaloneEvmNetworkE e := by
  simp only [isSubstrateEvmNetworkE, isStandaloneEvmNetworkE]
  cases e.substrateChain <;> rfl

/-- Processing the working entity `e0` strikes id `i` off the standalone
deletion map: the probe elected id `i` and the entity sits in the standalone
partition. -/
def evmReaffirmsStandalone (probe : String → Option EthRpcResponse)
    (e0 : EvmNetworkE) (i : String) : Bool :=
  some i = (probeEvmNetwork probe e0).id &&
    isStandaloneEvmNetworkE (probeEvmNetwork probe e0)

/-- Processing the working entity `e0` strikes id `i` off the substrate
deletion map. -/
def evmReaffirmsSubstrate (probe : String → Option EthRpcResponse)
    (e0 : EvmNetworkE) (i : String) : Bool :=
  some i = (probeEvmNetwork probe e0).id &&
    isSubstrateEvmNetworkE (probeEvmNetwork probe e0)

/-- The token-store effect of processing one working entity: standalone
networks with a resolved id provision their native token, everything else
leaves the store alone. -/
def evmTokenStep (probe : String → Option EthRpcResponse)
    (github : List GithubEvmNetwork) (e0 : EvmNetworkE) (tokens : List TokenE) :
    List TokenE :=
  match (probeEvmNetwork probe e0).id with
  | none => tokens
  | some _ =>
      if isStandaloneEvmNetworkE (probeEvmNetwork probe e0) then
        (evmNetworkNativeToken github (probeEvmNetwork probe e0) tokens).1
      else tokens

/-- The token store after processing a whole list of working entities. -/
def evmTokensAfter (probe : String → Option EthRpcResponse)
    (github : List GithubEvmNetwork) (entities : List EvmNetworkE)
    (tokens : List TokenE) : List TokenE :=
  entities.foldl (fun t e => evmTokenStep probe github e t) tokens

/-- Closed form of one processing step: each deletion map is filtered by
reaffirmation in its partition, the token store advances by `evmTokenStep`,
and the record outcome is `evmProcessedEntity`. -/
lemma processEvmEntity_spec (probe : String → Option EthRpcResponse)
    (github : List GithubEvmNetwork) (st : List String × List String × List TokenE)
    (e : EvmNetworkE) :
    processEvmEntity probe github st e =
      ((st.1.filter (fun i => !evmReaffirmsStandalone probe e i),
        st.2.1.filter (fun i => !evmReaffirmsSubstrate probe e i),
        evmTokenStep probe github e st.2.2),
       evmProcessedEntity probe github e) := by
  simp only [processEvmEntity, evmProcessedEntity, evmTokenStep,
    evmReaffirmsStandalone, evmReaffirmsSubstrate]
  cases hid : (probeEvmNetwork probe e).id with
  | none => simp
  | some i =>
      by_cases hs : isStandaloneEvmNetworkE (probeEvmNetwork probe e) = true
      · have hs2 : isSubstrateEvmNetworkE (probeEvmNetwork probe e) = false := by
          rw [substrate_eq_not_standalone, hs]
          rfl
        simp [hs, hs2, evmNetworkNativeToken, hid]
      · have hs' : isStandaloneEvmNetworkE (probeEvmNetwork probe e) = false :=
          Bool.not_eq_true _ ▸ eq_false_of_ne_true hs
        have hs2 : isSubstrateEvmNetworkE (probeEvmNetwork probe e) = true := by
          rw [substrate_eq_not_standalone, hs']
          rfl
        simp [hs', hs2]

/-- The per-entity fold in closed form: the final deletion maps keep exactly
the ids no processed entity reaffirms in their partition, the token store is
`evmTokensAfter`, and the collected updates are the `filterMap` of the
record outcomes. -/
lemma evmFold_spec (probe : String → Option EthRpcResponse)
    (github : List GithubEvmNetwork) (entities : List EvmNetworkE) :
    ∀ (ds dsub : List String) (tokens : List TokenE) (us : List EvmNetworkE),
    evmFold probe github ((ds, dsub, tokens), us) entities =
      ((ds.filter (fun i => entities.all (fun e => !evmReaffirmsStandalone probe e i)),
        dsub.filter (fun i => entities.all (fun e => !evmReaffirmsSubstrate probe e i)),
        evmTokensAfter probe github entities tokens),
       us ++ entities.filterMap (evmProcessedEntity probe github)) := by
  induction entities with
  | nil =>
      intro ds dsub tokens us
      simp [evmFold, evmTokensAfter]
  | cons e es ih =>
      intro ds dsub tokens us
      have h1 : evmFold probe github ((ds, dsub, tokens), us) (e :: es) =
          evmFold probe github (evmFoldStep probe github ((ds, dsub, tokens), us) e) es :=
        rfl
      have h2 : evmFoldStep probe github ((ds, dsub, tokens), us) e =
          ((ds.filter (fun i => !evmReaffirmsStandalone probe e i),
            dsub.filter (fun i => !evmReaffirmsSubstrate probe e i),
            evmTokenStep probe github e tokens),
           us ++ (evmProcessedEntity probe github e).toList) := by
        simp only [evmFoldStep, processEvmEntity_spec]
        cases evmProcessedEntity probe github e <;> simp
      rw [h1, h2, ih]
      refine congrArg₂ Prod.mk (congrArg₂ Prod.mk ?_ (congrArg₂ Prod.mk ?_ ?_)) ?_
      · rw [List.filter_filter]
        apply List.filter_congr
        intro i _
        rw [List.all_cons, Bool.and_comm]
      · rw [List.filter_filter]
        apply List.filter_congr
        intro i _
        rw [List.all_cons, Bool.and_comm]
      · rfl
      · cases hu : evmProcessedEntity probe github e <;>
          simp [List.filterMap_cons, hu]

/-- The ids swept at the end of `updateEvmNetworksFromGithub`: the invalid
stored rows plus, per partition, every stored id no processed entity
reaffirmed. -/
def evmDeletedIds (chains : List ChainE) (networks : List EvmNetworkE)
    (github : List GithubEvmNetwork) (probe : String → Option EthRpcResponse) :
    List String :=
  evmDelInvalid networks ++
    (evmDelStandalone0 networks).filter
      (fun i => (evmEntitiesOf chains networks github).all
        (fun e => !evmReaffirmsStandalone probe e i)) ++
    (evmDelSubstrate0 networks).filter
      (fun i => (evmEntitiesOf chains networks github).all
        (fun e => !evmReaffirmsSubstrate probe e i))

/-- The whole EVM step in closed form: the record outcomes are saved over the
stored rows in order, then every row whose id was swept is dropped; the token
store advances by `evmTokensAfter`. -/
def evmNetworksClosedForm (chains : List ChainE) (networks : List EvmNetworkE)
    (github : List GithubEvmNetwork) (probe : String → Option EthRpcResponse)
    (tokens : List TokenE) : List EvmNetworkE × List TokenE :=
  let entities := evmEntitiesOf chains networks github
  let saved := ((entities.filterMap (evmProcessedEntity probe github)).foldl
    (fun s e => saveRow (fun x => x.id) s e) networks)
  (saved.filter (fun e =>
      match e.id with
      | some i => ¬ (evmDeletedIds chains networks github probe).contains i
      | none => true),
    evmTokensAfter probe github entities tokens)

lemma updateEvm_closed (chains : List ChainE) (networks : List EvmNetworkE)
    (github : List GithubEvmNetwork) (probe : String → Option EthRpcResponse)
    (tokens : List TokenE) :
    updateEvmNetworksFromGithub chains networks github probe tokens =
      evmNetworksClosedForm chains networks github probe tokens := by
  simp only [updateEvmNetworksFromGithub, evmNetworksClosedForm, evmDeletedIds, evmFold_spec]
  simp

lemma evmProcessedEntity_id_none (probe : String → Option EthRpcResponse)
    (github : List GithubEvmNetwork) (e : EvmNetworkE)
    (h : evmProcessedEntity probe github e = none) :
    (probeEvmNetwork probe e).id = none := by
  revert h
  simp only [evmProcessedEntity]
  cases hid : (probeEvmNetwork probe e).id with
  | none => intro _; rfl
  | some i =>
      by_cases hs : isStandaloneEvmNetworkE (probeEvmNetwork probe e) = true <;>
        simp [hs]

/-- A working entity whose identity did not resolve is skipped entirely:
the deletion maps and the token store are left unchanged and no record
outcome is produced. -/
lemma processEvmEntity_skip_all (probe : String → Option EthRpcResponse)
    (github : List GithubEvmNetwork) (st : List String × List String × List TokenE)
    (e : EvmNetworkE) (h : evmProcessedEntity probe github e = none) :
    processEvmEntity probe github st e = (st, none) := by
  have hid := evmProcessedEntity_id_none probe github e h
  rw [processEvmEntity_spec, h]
  have hra : ∀ i, evmReaffirmsStandalone probe e i = false := by
    intro i
    simp [evmReaffirmsStandalone, hid]
  have hrs : ∀ i, evmReaffirmsSubstrate probe e i = false := by
    intro i
    simp [evmReaffirmsSubstrate, hid]
  have ht : evmTokenStep probe github e st.2.2 = st.2.2 := by
    simp only [evmTokenStep, hid]
  simp [hra, hrs, ht]

/-- A swept id never survives into the persisted networks. -/
lemma evm_output_excludes (chains : List ChainE) (networks : List EvmNetworkE)
    (github : List GithubEvmNetwork) (probe : String → Option EthRpcResponse)
    (tokens : List TokenE) (i : String)
    (hdel : i ∈ evmDeletedIds chains networks github probe) :
    ∀ n ∈ (updateEvmNetworksFromGithub chains networks github probe tokens).1,
      n.id ≠ some i := by
  rw [updateEvm_closed]
  simp only [evmNetworksClosedForm]
  intro n hn heq
  rcases List.mem_filter.mp hn with ⟨_, hp⟩
  rw [heq] at hp
  simp at hp
  exact hp hdel

/-- A stored standalone row whose id no processed entity reaffirms in the
standalone partition is swept. -/
lemma stale_standalone_swept (chains : List ChainE) (networks : List EvmNetworkE)
    (github : List GithubEvmNetwork) (probe : String → Option EthRpcResponse)
    (n0 : EvmNetworkE) (hn0 : n0 ∈ networks) (i : String) (hid : n0.id = some i)
    (hstand : isStandaloneEvmNetworkE n0 = true)
    (hno : ∀ e ∈ evmEntitiesOf chains networks github,
      evmReaffirmsStandalone probe e i = false) :
    i ∈ evmDeletedIds chains networks github probe := by
  unfold evmDeletedIds
  refine List.mem_append.mpr (Or.inl (List.mem_append.mpr (Or.inr ?_)))
  refine List.mem_filter.mpr ⟨?_, ?_⟩
  · exact List.mem_filterMap.mpr ⟨n0, List.mem_filter.mpr ⟨hn0, hstand⟩, hid⟩
  · refine List.all_eq_true.mpr ?_
    intro e he
    rw [hno e he]
    rfl

/-- A stored substrate-linked row whose id no processed entity reaffirms in
the substrate partition is swept. -/
lemma stale_substrate_swept (chains : List ChainE) (networks : List EvmNetworkE)
    (github : List GithubEvmNetwork) (probe : String → Option EthRpcResponse)
    (n0 : EvmNetworkE) (hn0 : n0 ∈ networks) (i : String) (hid : n0.id = some i)
    (hsub : isSubstrateEvmNetworkE n0 = true)
    (hno : ∀ e ∈ evmEntitiesOf chains networks github,
      evmReaffirmsSubstrate probe e i = false) :
    i ∈ evmDeletedIds chains networks github probe := by
  unfold evmDeletedIds
  refine List.mem_append.mpr (Or.inr ?_)
  refine List.mem_filter.mpr ⟨?_, ?_⟩
  · exact List.mem_filterMap.mpr ⟨n0, List.mem_filter.mpr ⟨hn0, hsub⟩, hid⟩
  · refine List.all_eq_true.mpr ?_
    intro e he
    rw [hno e he]
    rfl

/-- A stored standalone network holding id `1` under the name `Bar`. -/
def exStaleStandalone : EvmNetworkE := { id := some "1", name := some "Bar" }

/-- A stored substrate-linked network for chain `X`, holding id `9`. -/
def exStaleLinked : EvmNetworkE := { id := some "9", substrateChain := some "X" }

/-- An incoming github chain record. -/
def exGC : GithubChain := { id := "g0", name := some "GZero" }

/-- Counterexample for C1.  (a) Cross-partition id collision: the incoming
substrate-linked record's identity resolves to id `1` (every probe reports
chain id 1), but nothing at all is persisted — the stale standalone row also
held id `1`, the linked record only reaffirms the substrate deletion map, so
the freshly saved row is swept by the standalone map.  (b) A record whose
linked chain is not persisted is skipped before probing — no working entity
exists — yet the stored row it corresponds to (id `9`) is deleted, not left
unchanged. -/
theorem reconciliation_counterexample :
    ((evmEntitiesOf [exChainX] [exStaleStandalone] [exGithubLinked]).map
        (fun e => (evmProcessedEntity exProbeOne [exGithubLinked] e).map
          (fun u => u.id))) = [some (some "1")] ∧
    (updateEvmNetworksFromGithub [exChainX] [exStaleStandalone] [exGithubLinked]
        exProbeOne []).1 = [] ∧
    evmEntitiesOf [] [exStaleLinked] [exGithubLinked] = [] ∧
    exStaleLinked.id = some "9" ∧
    (updateEvmNetworksFromGithub [] [exStaleLinked] [exGithubLinked]
        exProbeOne []).1 = [] :=
  ⟨rfl, rfl, rfl, rfl, rfl⟩

/-- **C1** (amended).  Reconciliation against the source lists, as the code
actually behaves.  Chains: the record at position `k` is persisted with
exactly the last-applied mapping (`appliedChainMapping`), every incoming
record's id is persisted, and a stored chain reaffirmed by no record is
deleted.  EVM networks: the step equals its closed form — the processed
record outcomes are saved in order and every row whose id the sweep list
holds is dropped; a record whose identity does not resolve is skipped (state
threaded through unchanged, no outcome); and a stored row of either
partition whose id no processed entity reaffirms *in that same partition* is
absent afterwards — even when an incoming record of the other partition
resolved that very id, which is where the original claim fails. -/
theorem reconciliation_upsert_and_sweep (store : List ChainE)
    (github : List GithubChain) (hnodup : (github.map (fun x => x.id)).Nodup)
    (k : ℕ) (hk : k < github.length) (chains : List ChainE)
    (networks : List EvmNetworkE) (egithub : List GithubEvmNetwork)
    (probe : String → Option EthRpcResponse) (tokens : List TokenE) :
    ((updateChainsFromGithub store github).find? (fun c => c.id = github[k].id) =
      some (appliedChainMapping store github k github[k])) ∧
    (∀ g ∈ github, ∃ c ∈ updateChainsFromGithub store github, c.id = g.id) ∧
    (∀ c0 ∈ store, (∀ g ∈ github, g.id ≠ c0.id) →
      ∀ c ∈ updateChainsFromGithub store github, c.id ≠ c0.id) ∧
    (updateEvmNetworksFromGithub chains networks egithub probe tokens =
      evmNetworksClosedForm chains networks egithub probe tokens) ∧
    (∀ (st : List String × List String × List TokenE) (e : EvmNetworkE),
      evmProcessedEntity probe egithub e = none →
      processEvmEntity probe egithub st e = (st, none)) ∧
    (∀ n0 ∈ networks, ∀ i : String, n0.id = some i →
      isStandaloneEvmNetworkE n0 = true →
      (∀ e ∈ evmEntitiesOf chains networks egithub,
        evmReaffirmsStandalone probe e i = false) →
      ∀ n ∈ (updateEvmNetworksFromGithub chains networks egithub probe tokens).1,
        n.id ≠ some i) ∧
    (∀ n0 ∈ networks, ∀ i : String, n0.id = some i →
      isSubstrateEvmNetworkE n0 = true →
      (∀ e ∈ evmEntitiesOf chains networks egithub,
        evmReaffirmsSubstrate probe e i = false) →
      ∀ n ∈ (updateEvmNetworksFromGithub chains networks egithub probe tokens).1,
        n.id ≠ some i) := by
  refine ⟨updateChains_find_applied store github hnodup k hk,
    updateChains_exists store github, updateChains_deleted store github,
    updateEvm_closed chains networks egithub probe tokens, ?_, ?_, ?_⟩
  · intro st e h
    exact processEvmEntity_skip_all probe egithub st e h
  · intro n0 hn0 i hid hstand hno
    exact evm_output_excludes chains networks egithub probe tokens i
      (stale_standalone_swept chains networks egithub probe n0 hn0 i hid hstand hno)
  · intro n0 hn0 i hid hsub hno
    exact evm_output_excludes chains networks egithub probe tokens i
      (stale_substrate_swept chains networks egithub probe n0 hn0 i hid hsub hno)

/-- Witness for the amended C1 at a concrete input: one incoming chain
record `g0` over an empty chain store, and the collision scenario on the EVM
side — the stale standalone row holding id `1` survives in no case. -/
theorem reconciliation_upsert_and_sweep_witness :
    ((updateChainsFromGithub [] [exGC]).find? (fun c => c.id = "g0") =
      some (appliedChainMapping [] [exGC] 0 exGC)) ∧
    (updateEvmNetworksFromGithub [exChainX] [exStaleStandalone] [exGithubLinked]
        exProbeOne [] =
      evmNetworksClosedForm [exChainX] [exStaleStandalone] [exGithubLinked]
        exProbeOne []) := by
  have h := reconciliation_upsert_and_sweep [] [exGC] (by decide) 0 (by decide)
    [exChainX] [exStaleStandalone] [exGithubLinked] exProbeOne []
  exact ⟨h.1, h.2.2.2.1⟩

/-- Modelled from the spec: the incoming github token record (`GithubToken`
in src/types, not under src/), as the processor reads it: an optional token
id plus rename/price-feed overrides, and the fields of a preconfigured ERC-20
entry. -/
structure GithubToken where
  id : Option String := none
  symbol : Option String := none
  coingeckoId : Option String := none
  decimals : Option Int := none
  contractAddress : Option String := none
  evmNetworkId : Option Nat := none
  deriving Repr, DecidableEq

/-- `isRenameOrCoingeckoId` (processor.ts lines 541-543). -/
def isRenameOrCoingeckoId (t : GithubToken) : Bool :=
  t.id.isSome && (t.coingeckoId.isSome || t.symbol.isSome)

/-- `isErc20` (processor.ts lines 559-560). -/
def isErc20 (t : GithubToken) : Bool :=
  t.contractAddress.isSome && t.evmNetworkId.isSome

/-- One rename/price-feed-override record (processor.ts lines 544-557):
fetch the token by id — skipping unknown ids — overwrite `symbol` and
`coingeckoId` when the record carries truthy values, and persist. -/
def renameStep (tokens : List TokenE) (g : GithubToken) : List TokenE :=
  match tokens.find? (fun t => some t.id = g.id) with
  | none => tokens
  | some tok =>
      let tok := if jsTruthyStr g.symbol then { tok with symbol := g.symbol } else tok
      let tok :=
        if jsTruthyStr g.coingeckoId then { tok with coingeckoId := g.coingeckoId } else tok
      saveToken tokens tok

/-- One preconfigured ERC-20 record (processor.ts lines 565-587): resolve the
network — skipping unresolved ids — fetch-or-create the token under the
deterministic ERC-20 id, strike it off the deletion map, overwrite the mapped
fields and persist.  The state threads the token store and the deletion
map. -/
def erc20Step (networks : List EvmNetworkE) (st : List TokenE × List String)
    (g : GithubToken) : List TokenE × List String :=
  match g.evmNetworkId with
  | none => st
  | some v =>
      match networks.find? (fun n => n.id = some (toString v)) with
      | none => st
      | some net =>
          let tid := erc20TokenId (net.id.getD "") (g.contractAddress.getD "")
          let tok := getOrCreateToken st.1 TokenKind.erc20 tid
          let tok := { tok with
            symbol := g.symbol
            decimals := g.decimals
            coingeckoId := g.coingeckoId
            contractAddress := g.contractAddress
            evmNetwork := net.id }
          (saveToken st.1 tok, st.2.filter (fun i => i ≠ tid))

/-- `updateTokensFromGithub` (processor.ts lines 537-591): apply the rename
records, then reconcile the preconfigured ERC-20 tokens against the store,
deleting every stored ERC-20 token no incoming record reaffirmed. -/
def updateTokensFromGithub (githubTokens : List GithubToken)
    (networks : List EvmNetworkE) (tokens : List TokenE) : List TokenE :=
  let tokens1 := (githubTokens.filter (fun t => isRenameOrCoingeckoId t)).foldl
    renameStep tokens
  let dels0 := (tokens1.filter (fun t => t.isTypeOf = TokenKind.erc20)).map
    (fun t => t.id)
  let r := (githubTokens.filter (fun t => isErc20 t)).foldl (erc20Step networks)
    (tokens1, dels0)
  r.1.filter (fun t => ¬ r.2.contains t.id)

/-- The full persisted graph threaded through one pipeline run. -/
structure PipelineState where
  chains : List ChainE
  networks : List EvmNetworkE
  tokens : List TokenE
  deriving Repr, DecidableEq

/-- One run of the processor steps in order (processor.ts lines 110-663):
chain sync, chain-metadata extraction, EVM-network sync, sort-index
assignment, token sync, testnet propagation, price refresh.  The upstream
inputs — the three github rosters, the substrate and ethereum probe
responses, the extraction results, the symbol workarounds, the price feed —
are function parameters, identical across runs.  Modelled from the spec:
`sortChainsAndNetworks` (src/helpers, not under src/) is an external ordering
collaborator; the sort step applies it to the reconciled chain/network set
and persists the result, so it enters the model as the parameter `sorter`. -/
def pipelineRun (ghChains : List GithubChain) (ghEvm : List GithubEvmNetwork)
    (ghTokens : List GithubToken) (probeOk : String → Bool)
    (extract : String → ℕ → Option ExtractResult)
    (workarounds : String → Option TokenSymbolWorkaround)
    (probe : String → Option EthRpcResponse)
    (sorter : List ChainE → List EvmNetworkE → List ChainE × List EvmNetworkE)
    (prices : String → Option (String → Option ℚ))
    (st : PipelineState) : PipelineState :=
  let chains1 := updateChainsFromGithub st.chains ghChains
  let r2 := updateChainData probeOk extract workarounds chains1 st.tokens
  let r3 := updateEvmNetworksFromGithub r2.1 st.networks ghEvm probe r2.2
  let s4 := sorter r2.1 r3.1
  let tokens5 := updateTokensFromGithub ghTokens s4.2 r3.2
  let tokens6 := updateTokensTestnetField s4.1 s4.2 tokens5
  ⟨s4.1, s4.2, updateTokenRates prices tokens6⟩

/-- After a chain-sync run, the persisted ids are exactly the incoming ids,
whatever the starting store. -/
lemma updateChains_mem_ids (store : List ChainE) (github : List GithubChain) :
    ∀ i : String, (∃ c ∈ updateChainsFromGithub store github, c.id = i) ↔
      ∃ g ∈ github, g.id = i := by
  intro i
  constructor
  · rintro ⟨c, hc, rfl⟩
    unfold updateChainsFromGithub at hc
    rcases List.mem_filter.mp hc with ⟨hc1, hc2⟩
    have hnot : c.id ∉ (updateChainsLoop store (store.map (fun c => c.id)) github).2 := by
      simpa using hc2
    rcases (updateChainsLoop_ids github store _ c.id).mp ⟨c, hc1, rfl⟩ with hst | hg
    · by_contra hng
      push_neg at hng
      refine hnot ((updateChainsLoop_dels github store _ c.id).mpr ⟨?_, ?_⟩)
      · rcases hst with ⟨c0, hc0, hc0id⟩
        exact List.mem_map.mpr ⟨c0, hc0, hc0id⟩
      · intro g hg hgi
        exact hng g hg hgi
    · exact hg
  · rintro ⟨g, hg, rfl⟩
    exact updateChains_exists store github g hg

/-- The relay resolver only reads the store's id membership. -/
lemma chainRelayResolved_congr (s1 s2 : List ChainE) (github : List GithubChain)
    (k : ℕ) (g : GithubChain)
    (hmem : ∀ i : String, (∃ c ∈ s1, c.id = i) ↔ (∃ c ∈ s2, c.id = i)) :
    chainRelayResolved s1 github k g = chainRelayResolved s2 github k g := by
  have h : ∀ (x : String) (T : List String),
      ((s1.map (fun c => c.id) ++ T).contains x) =
        ((s2.map (fun c => c.id) ++ T).contains x) := by
    intro x T
    have h1 : (x ∈ s1.map (fun c => c.id) ++ T) ↔ (x ∈ s2.map (fun c => c.id) ++ T) := by
      simp only [List.mem_append, List.mem_map]
      constructor
      · rintro (⟨a, ha, rfl⟩ | ht)
        · rcases (hmem a.id).mp ⟨a, ha, rfl⟩ with ⟨b, hb, hbid⟩
          exact Or.inl ⟨b, hb, hbid⟩
        · exact Or.inr ht
      · rintro (⟨a, ha, rfl⟩ | ht)
        · rcases (hmem a.id).mpr ⟨a, ha, rfl⟩ with ⟨b, hb, hbid⟩
          exact Or.inl ⟨b, hb, hbid⟩
        · exact Or.inr ht
    simp only [List.contains, List.elem_eq_mem]
    exact decide_eq_decide.mpr h1
  unfold chainRelayResolved
  rw [h]

/-- The applied mapping is stable across stores that agree on id membership,
provided the row fetched from the second store is the mapping applied over
the first. -/
lemma appliedChainMapping_congr (s1 s2 : List ChainE) (github : List GithubChain)
    (k : ℕ) (g : GithubChain)
    (hres : chainRelayResolved s1 github k g = chainRelayResolved s2 github k g)
    (hbase : getOrCreateChain s2 g.id = appliedChainMapping s1 github k g) :
    appliedChainMapping s1 github k g = appliedChainMapping s2 github k g := by
  conv_rhs => rw [appliedChainMapping, hbase, ← hres]
  rfl

/-- An incoming parachain record: relay `R`, paraId 2000. -/
def exGhP : GithubChain := { id := "P", paraId := some 2000, relay := some "R" }

/-- The incoming relay record, listed after the parachain. -/
def exGhR : GithubChain := { id := "R" }

/-- One pipeline run over the two-chain roster with inert probes, extraction,
sorting and price feed. -/
def exPipeRun (st : PipelineState) : PipelineState :=
  pipelineRun [exGhP, exGhR] [] [] (fun _ => false) (fun _ _ => none)
    (fun _ => none) (fun _ => none) (fun c n => (c, n)) (fun _ => none) st

/-- Counterexample for C9: with the parachain record `P` listed before its
relay `R`, the first run from an empty store resolves no relay for `P`
(the relay lookup hits the store before `R` is persisted), while the second
run — identical upstream inputs — resolves it; the persisted graphs of the
two runs differ. -/
theorem pipeline_idempotence_counterexample :
    ((exPipeRun ⟨[], [], []⟩).chains.find? (fun c => c.id = "P")).map
        (fun c => (c.paraId, c.relay)) = some (none, none) ∧
    ((exPipeRun (exPipeRun ⟨[], [], []⟩)).chains.find? (fun c => c.id = "P")).map
        (fun c => (c.paraId, c.relay)) = some (some 2000, some "R") ∧
    exPipeRun (exPipeRun ⟨[], [], []⟩) ≠ exPipeRun ⟨[], [], []⟩ :=
  ⟨rfl, rfl, by decide⟩

/-- **C9** (amended).  The pipeline is not idempotent from an arbitrary
store — relay references are resolved against the evolving store, so the
first run's output depends on roster order (see the counterexample).  The
chain-sync step itself, however, stabilises from the second application on:
iterating `updateChainsFromGithub` on a fixed roster, the row persisted for
every incoming record after the second application equals the row after the
third (the id set is the roster from the first application on, so relay
resolution — and with it the whole applied mapping — no longer changes). -/
theorem pipeline_second_run_chain_fixpoint (store : List ChainE)
    (github : List GithubChain) (hnodup : (github.map (fun x => x.id)).Nodup)
    (k : ℕ) (hk : k < github.length) :
    (updateChainsFromGithub (updateChainsFromGithub store github) github).find?
        (fun c => c.id = github[k].id) =
      (updateChainsFromGithub (updateChainsFromGithub
          (updateChainsFromGithub store github) github) github).find?
        (fun c => c.id = github[k].id) := by
  rw [updateChains_find_applied (updateChainsFromGithub store github) github hnodup k hk,
    updateChains_find_applied
      (updateChainsFromGithub (updateChainsFromGithub store github) github)
      github hnodup k hk]
  refine congrArg some (appliedChainMapping_congr _ _ github k github[k] ?_ ?_)
  · refine chainRelayResolved_congr _ _ github k github[k] ?_
    intro i
    exact (updateChains_mem_ids store github i).trans
      (updateChains_mem_ids (updateChainsFromGithub store github) github i).symm
  · have hf := updateChains_find_applied (updateChainsFromGithub store github)
      github hnodup k hk
    unfold getOrCreateChain findChain
    rw [hf]

/-- Witness for the amended C9 at a concrete input: the two-chain roster
`P`, `R`; the second and third applications of the chain sync agree on the
row persisted for `P`. -/
theorem pipeline_second_run_chain_fixpoint_witness :
    (updateChainsFromGithub (updateChainsFromGithub [] [exGhP, exGhR])
        [exGhP, exGhR]).find? (fun c => c.id = [exGhP, exGhR][0].id) =
      (updateChainsFromGithub (updateChainsFromGithub
          (updateChainsFromGithub [] [exGhP, exGhR]) [exGhP, exGhR])
        [exGhP, exGhR]).find? (fun c => c.id = [exGhP, exGhR][0].id) :=
  pipeline_second_run_chain_fixpoint [] [exGhP, exGhR] (by decide) 0 (by decide)
